import Mathlib

/-!
Verification of the AAP organization inspector (aap_org_inspector.py).

The Python program is shallowly embedded: JSON payloads become the inductive
type Json, HTTP traffic becomes a pure function from endpoint strings to
responses, Python exceptions and sys.exit become the PyR result type, and the
observable side effects the claims speak about (HTTP requests, the cross-org
warning lines, the not-found diagnostic) become an event list threaded through
every operation.
-/

/-- A JSON value as produced by the json module: Python None is Json.null,
Python dicts are field lists in insertion order. Numbers are restricted to
integers (the payload fields the tool reads are IDs and counts). -/
inductive Json where
  | null
  | bool (b : Bool)
  | num (n : Int)
  | str (s : String)
  | arr (items : List Json)
  | obj (fields : List (String × Json))
deriving Repr

/-- First binding of a key in a field list (Python dicts have unique keys). -/
def lookupField : List (String × Json) → String → Option Json
  | [], _ => none
  | (k, v) :: rest, key => if k = key then some v else lookupField rest key

/-- Key membership in a field list: the dict operator in on a dict. -/
def hasField (fields : List (String × Json)) (key : String) : Bool :=
  (lookupField fields key).isSome

/-- Python dict assignment d[key] = v: replace in place, or append a new key. -/
def dictSet (fields : List (String × Json)) (key : String) (v : Json) :
    List (String × Json) :=
  if hasField fields key then
    fields.map (fun kv => (kv.1, if kv.1 = key then v else kv.2))
  else fields ++ [(key, v)]

/-- Python truthiness of a json value: None, False, 0, empty string, empty
list and empty dict are falsy; everything else is truthy. -/
def Json.truthy : Json → Bool
  | .null => false
  | .bool b => b
  | .num n => n != 0
  | .str s => s ≠ ""
  | .arr xs => !xs.isEmpty
  | .obj fs => !fs.isEmpty

mutual
/-- Python equality on json values. Scalars compare with the numeric
coercion of booleans (True == 1). Dicts are compared field by field in
order; Python compares dicts as unordered maps, which coincides on
equal-ordered field lists, and the program only ever compares scalar IDs. -/
def Json.pyEq : Json → Json → Bool
  | .null, .null => true
  | .bool a, .bool b => a = b
  | .bool a, .num m => (if a then (1 : Int) else 0) = m
  | .num n, .bool b => n = (if b then (1 : Int) else 0)
  | .num n, .num m => n = m
  | .str a, .str b => a = b
  | .arr as, .arr bs => Json.pyEqItems as bs
  | .obj fs, .obj gs => Json.pyEqFields fs gs
  | _, _ => false

/-- Elementwise Python equality of two lists. -/
def Json.pyEqItems : List Json → List Json → Bool
  | [], [] => true
  | a :: as, b :: bs => Json.pyEq a b && Json.pyEqItems as bs
  | _, _ => false

/-- Fieldwise Python equality of two field lists. -/
def Json.pyEqFields : List (String × Json) → List (String × Json) → Bool
  | [], [] => true
  | (k, v) :: fs, (l, w) :: gs => k = l && Json.pyEq v w && Json.pyEqFields fs gs
  | _, _ => false
end

mutual
/-- Python repr of a json value (string escaping inside repr is omitted;
the program only formats scalar IDs and names). -/
def Json.pyRepr : Json → String
  | .null => "None"
  | .bool b => if b then "True" else "False"
  | .num n => toString n
  | .str s => "\x27" ++ s ++ "\x27"
  | .arr xs => "[" ++ Json.reprItems xs ++ "]"
  | .obj fs => "\x7b" ++ Json.reprFields fs ++ "\x7d"

/-- Comma-joined reprs of list elements. -/
def Json.reprItems : List Json → String
  | [] => ""
  | [x] => Json.pyRepr x
  | x :: xs => Json.pyRepr x ++ ", " ++ Json.reprItems xs

/-- Comma-joined reprs of dict entries. -/
def Json.reprFields : List (String × Json) → String
  | [] => ""
  | [(k, v)] => "\x27" ++ k ++ "\x27: " ++ Json.pyRepr v
  | (k, v) :: fs => "\x27" ++ k ++ "\x27: " ++ Json.pyRepr v ++ ", " ++ Json.reprFields fs
end

/-- Python str() of a json value, as used in f-string interpolation. -/
def Json.pyStr : Json → String
  | .str s => s
  | j => Json.pyRepr j

/-- Python d.get(key, default): succeeds only on a dict; on any other
receiver the attribute access raises (AttributeError). -/
def pyGetD (j : Json) (key : String) (dflt : Json) : Except String Json :=
  match j with
  | .obj fs => .ok ((lookupField fs key).getD dflt)
  | _ => .error "AttributeError"

/-- Python d[key] with a string key: dict lookup (KeyError when absent);
indexing a list or string with a string raises TypeError. -/
def pyIndex (j : Json) (key : String) : Except String Json :=
  match j with
  | .obj fs =>
      match lookupField fs key with
      | some v => .ok v
      | none => .error "KeyError"
  | _ => .error "TypeError"

/-- Python x[0]: first element of a list, first character of a string;
IndexError when empty, KeyError on a dict without an integer key,
TypeError otherwise. -/
def pyIndex0 : Json → Except String Json
  | .arr (x :: _) => .ok x
  | .arr [] => .error "IndexError"
  | .str s =>
      match s.toList with
      | c :: _ => .ok (.str (String.mk [c]))
      | [] => .error "IndexError"
  | .obj _ => .error "KeyError"
  | _ => .error "TypeError"

/-- Whether a nonempty needle occurs as a contiguous run at the front of the
haystack; some gives back the characters after the match. -/
def matchFront : List Char → List Char → Option (List Char)
  | [], rest => some rest
  | _, [] => none
  | c :: cs, d :: ds => if c = d then matchFront cs ds else none

/-- Leftmost occurrence of a separator in a character list: some (pre, post)
splits around the first occurrence, none means no occurrence. -/
def splitFirst (sep : List Char) : List Char → Option (List Char × List Char)
  | [] => none
  | c :: cs =>
      match matchFront sep (c :: cs) with
      | some rest => some ([], rest)
      | none => (splitFirst sep cs).map (fun pq => (c :: pq.1, pq.2))

theorem matchFront_length : ∀ (sep l rest : List Char),
    matchFront sep l = some rest → rest.length + sep.length = l.length := by
  intro sep
  induction sep with
  | nil => intro l rest h; simp [matchFront] at h; simp [h]
  | cons c cs ih =>
      intro l rest h
      cases l with
      | nil => simp [matchFront] at h
      | cons d ds =>
          simp only [matchFront] at h
          split at h
          · have := ih ds rest h
            simp [List.length_cons]
            omega
          · exact absurd h (by simp)

theorem splitFirst_post_length : ∀ (sep l : List Char) (pre post : List Char),
    splitFirst sep l = some (pre, post) → post.length + sep.length ≤ l.length := by
  intro sep l
  induction l with
  | nil => intro pre post h; simp [splitFirst] at h
  | cons c cs ih =>
      intro pre post h
      simp only [splitFirst] at h
      split at h
      · rename_i rest hm
        have hlen := matchFront_length sep (c :: cs) rest hm
        simp only [Option.some.injEq, Prod.mk.injEq] at h
        obtain ⟨hpre, hpost⟩ := h
        subst hpost
        omega
      · cases hsf : splitFirst sep cs with
        | none => rw [hsf] at h; exact absurd h (by simp [Option.map])
        | some pq =>
            rw [hsf] at h
            obtain ⟨p, q⟩ := pq
            simp only [Option.map_some', Option.some.injEq, Prod.mk.injEq] at h
            obtain ⟨hpre, hpost⟩ := h
            subst hpost
            have := ih p q hsf
            simp only [List.length_cons]
            omega

/-- Python s.split(sep) with explicit recursion fuel, so that closed
instances reduce inside the kernel; pySplit supplies enough fuel for the
fallback branch at fuel zero to be unreachable (pySplitF_ge below). -/
def pySplitF (sep : List Char) : Nat → List Char → List (List Char)
  | 0, s => [s]
  | fuel + 1, s =>
      match splitFirst sep s with
      | none => [s]
      | some (pre, post) => pre :: pySplitF sep fuel post

/-- Python s.split(sep) for a nonempty separator: the fields between
non-overlapping leftmost occurrences of the separator. -/
def pySplit (sep : List Char) (s : List Char) : List (List Char) :=
  pySplitF sep (s.length + 1) s

theorem pySplitF_succ (sep : List Char) (fuel : Nat) (s : List Char) :
    pySplitF sep (fuel + 1) s
      = match splitFirst sep s with
        | none => [s]
        | some pq => pq.1 :: pySplitF sep fuel pq.2 := by
  simp only [pySplitF]
  cases splitFirst sep s with
  | none => rfl
  | some pq => cases pq; rfl

theorem pySplitF_ge (sep : List Char) (hsep : sep ≠ []) :
    ∀ (fuel1 fuel2 : Nat) (s : List Char), s.length < fuel1 → s.length < fuel2 →
      pySplitF sep fuel1 s = pySplitF sep fuel2 s := by
  intro fuel1
  induction fuel1 with
  | zero => intro fuel2 s h1; omega
  | succ f1 ih =>
      intro fuel2 s h1 h2
      cases fuel2 with
      | zero => omega
      | succ f2 =>
          rw [pySplitF_succ, pySplitF_succ]
          cases hsf : splitFirst sep s with
          | none => rfl
          | some pq =>
              obtain ⟨pre, post⟩ := pq
              have hpl := splitFirst_post_length sep s pre post hsf
              have hsl : 0 < sep.length := List.length_pos.mpr hsep
              simp only
              rw [ih f2 post (by omega) (by omega)]

/-- Unfolding rule for pySplit at an occurrence of the separator. -/
theorem pySplit_cons (sep : List Char) (hsep : sep ≠ []) (s pre post : List Char)
    (h : splitFirst sep s = some (pre, post)) :
    pySplit sep s = pre :: pySplit sep post := by
  have hpl := splitFirst_post_length sep s pre post h
  have hsl : 0 < sep.length := List.length_pos.mpr hsep
  have step : pySplit sep s = pre :: pySplitF sep s.length post := by
    rw [pySplit, pySplitF_succ, h]
  rw [step, pySplit]
  rw [pySplitF_ge sep hsep s.length (post.length + 1) post (by omega) (by omega)]

/-- Unfolding rule for pySplit when the separator does not occur. -/
theorem pySplit_single (sep : List Char) (s : List Char)
    (h : splitFirst sep s = none) : pySplit sep s = [s] := by
  rw [pySplit, pySplitF_succ, h]

/-- Python substring containment: key in s (an empty needle is contained). -/
def strIncludes (s key : String) : Bool :=
  if key = "" then true else (splitFirst key.toList s.toList).isSome

/-- Python key in container: key membership on a dict, element equality on
a list, substring test on a string, TypeError otherwise. -/
def pyContains (key : String) (j : Json) : Except String Bool :=
  match j with
  | .obj fs => .ok (hasField fs key)
  | .arr xs => .ok (xs.any (fun x => Json.pyEq x (.str key)))
  | .str s => .ok (strIncludes s key)
  | _ => .error "TypeError"

/-- Python count greater-than 0: defined on numbers (and booleans, which
are numbers in Python); comparing anything else with an int raises. -/
def pyGt0 (j : Json) : Except String Bool :=
  match j with
  | .num n => .ok (0 < n)
  | .bool b => .ok b
  | _ => .error "TypeError"

/-- Python xs[:5]: the first five elements of a list, the first five
characters of a string (as one-character strings); slicing anything else
raises. -/
def pySlice5 : Json → Except String (List Json)
  | .arr xs => .ok (xs.take 5)
  | .str s => .ok ((s.toList.take 5).map (fun c => Json.str (String.mk [c])))
  | _ => .error "TypeError"

/-- Digits of a Python int literal body after the first digit was read:
single underscores are allowed between digits only. -/
def pyDigitsRest (acc : Nat) : List Char → Option Nat
  | [] => some acc
  | '_' :: d :: cs =>
      if d.isDigit then pyDigitsRest (acc * 10 + (d.toNat - 48)) cs else none
  | ['_'] => none
  | c :: cs =>
      if c.isDigit then pyDigitsRest (acc * 10 + (c.toNat - 48)) cs else none

/-- A nonempty run of decimal digits with optional single underscores
between digits, as accepted by Python int(). -/
def pyDigits? : List Char → Option Nat
  | c :: cs => if c.isDigit then pyDigitsRest (c.toNat - 48) cs else none
  | [] => none

/-- The ASCII whitespace characters Python str.strip removes. -/
def isPyWs (c : Char) : Bool :=
  c = ' ' || c = '\t' || c = '\n' || c = '\r' || c = '\x0b' || c = '\x0c'

/-- Python s.strip(): whitespace removed from both ends. -/
def pyStrip (cs : List Char) : List Char :=
  ((cs.dropWhile isPyWs).reverse.dropWhile isPyWs).reverse

/-- Python int(s) on a string: strip whitespace, optional sign, then a
digit run with optional underscores; none models ValueError. Python also
accepts unicode digits and whitespace, which this embedding restricts to
ASCII. -/
def pyInt? (s : String) : Option Int :=
  match pyStrip s.toList with
  | '-' :: cs => (pyDigits? cs).map (fun n => -(n : Int))
  | '+' :: cs => (pyDigits? cs).map (fun n => (n : Int))
  | cs => (pyDigits? cs).map (fun n => (n : Int))

/-- Outcome of a Python computation: a value, a raised exception that
an except Exception handler can catch, or process termination through
sys.exit (SystemExit does not derive Exception, so except Exception
handlers do not catch it). -/
inductive PyR (α : Type) where
  | ok (a : α)
  | exc (msg : String)
  | exit (code : Nat)
deriving Repr, DecidableEq

/-- Observable events of a run: an HTTP GET of an endpoint, the error-stream
diagnostic and exit of a failed request, the cross-organization warning line
(credential name and the displayed owner id), and the organization-not-found
diagnostic. -/
inductive Ev where
  | req (endpoint : String)
  | reqFailed (endpoint : String)
  | warn (credName : String) (ownerShown : String)
  | notFound (identifier : String)
deriving Repr, DecidableEq

/-- The remote API as a pure map from endpoint (relative to the api/v2 base)
to either a JSON body or a transport-level failure (non-2xx status,
connection error, or an unparsable body). -/
abbrev Net := String → Except String Json

/-- AAPClient.get: issue the GET; on requests.RequestException print the
diagnostic and sys.exit(1), otherwise return the decoded JSON body. -/
def AAPClient.get (net : Net) (endpoint : String) : PyR Json × List Ev :=
  match net endpoint with
  | .ok body => (.ok body, [.req endpoint])
  | .error _ => (.exit 1, [.req endpoint, .reqFailed endpoint])

/-- AAPClient.get_organizations. -/
def AAPClient.get_organizations (net : Net) : PyR Json × List Ev :=
  AAPClient.get net "organizations/"

/-- AAPClient.get_organization_by_id: GET organizations/(id)/. -/
def AAPClient.get_organization_by_id (net : Net) (org_id : Int) : PyR Json × List Ev :=
  AAPClient.get net ("organizations/" ++ toString org_id ++ "/")

/-- AAPClient.get_organization_by_name: GET the name-filtered list and
return the first result, or None (Json.null) when the result list is
falsy. -/
def AAPClient.get_organization_by_name (net : Net) (org_name : String) :
    PyR Json × List Ev :=
  match AAPClient.get net ("organizations/?name=" ++ org_name) with
  | (.ok response, evs) =>
      (match pyGetD response "results" (.arr []) with
       | .error m => (.exc m, evs)
       | .ok results =>
           if results.truthy then
             match pyIndex0 results with
             | .ok first => (.ok first, evs)
             | .error m => (.exc m, evs)
           else (.ok .null, evs))
  | (.exc m, evs) => (.exc m, evs)
  | (.exit c, evs) => (.exit c, evs)

/-- The version-root marker the related-url handling splits on. -/
def apiMarker : List Char := "/api/v2/".toList

theorem apiMarker_ne_nil : apiMarker ≠ [] := by decide

/-- Python s.startswith(pre). -/
def pyStartswith (pre s : String) : Bool :=
  (matchFront pre.toList s.toList).isSome

/-- AAPClient.get_related_data: a full URL (starting with http) is split on
the version-root marker and the second split field is requested relative to
the base, or None is returned when the marker does not occur; a relative
path is requested with leading slashes stripped. -/
def AAPClient.get_related_data (net : Net) (related_url : String) :
    PyR Json × List Ev :=
  if pyStartswith "http" related_url then
    match pySplit apiMarker related_url.toList with
    | _ :: p1 :: _ => AAPClient.get net (String.mk p1)
    | _ => (.ok .null, [])
  else
    AAPClient.get net (String.mk (related_url.toList.dropWhile (fun c => c = '/')))

/-- The fixed catalogue of related resource types the inspector walks, in
source order, as (related-links key, display label). -/
def resource_types : List (String × String) :=
  [("teams", "Teams"),
   ("users", "Users"),
   ("projects", "Projects"),
   ("inventories", "Inventories"),
   ("job_templates", "Job Templates"),
   ("workflow_job_templates", "Workflow Job Templates"),
   ("credentials", "Credentials"),
   ("notification_templates", "Notification Templates"),
   ("instance_groups", "Instance Groups"),
   ("applications", "Applications"),
   ("activity_stream", "Activity Stream"),
   ("access_list", "Access List")]

/-- The scalar organization fields the inspector prints. -/
def important_fields : List String :=
  ["id", "name", "description", "created", "modified",
   "max_hosts", "custom_virtualenv", "default_environment"]

/-- One preview entry: name falls back from name to username to N/A, id
falls back to N/A; a non-dict item raises (AttributeError) when .get is
called on it. -/
def previewItem (item : Json) : Except String Json :=
  match item with
  | .obj fs =>
      let fallback := (lookupField fs "username").getD (.str "N/A")
      let name := (lookupField fs "name").getD fallback
      let idJ := (lookupField fs "id").getD (.str "N/A")
      .ok (.obj [("id", idJ), ("name", name)])
  | _ => .error "AttributeError"

/-- The preview entries accumulated by the item loop: an exception on one
item abandons the rest but keeps the entries appended so far. -/
def processItems : List Json → List Json
  | [] => []
  | item :: rest =>
      match previewItem item with
      | .ok d => d :: processItems rest
      | .error _ => []

/-- The body of one resource type iteration of the dependency traversal
(the per-type try block): fetch the related url, read the count, and when
the count is truthy-positive and a results field exists, store up to five
preview entries under the type key. Caught exceptions (the per-type except
handler) leave the outcome at none; a transport failure inside the GET
helper exits the process, reported as some exit-code. -/
def processType (net : Net) (deps : List (String × Json)) (field : String)
    (url : Json) : List (String × Json) × List Ev × Option Nat :=
  match url with
  | .str u =>
      (match AAPClient.get_related_data net u with
       | (.exit c, evs) => (deps, evs, some c)
       | (.exc _, evs) => (deps, evs, none)
       | (.ok data, evs) =>
           match data with
           | .obj fs =>
               (match pyGt0 ((lookupField fs "count").getD (.num 0)) with
                | .error _ => (deps, evs, none)
                | .ok false => (deps, evs, none)
                | .ok true =>
                    match lookupField fs "results" with
                    | none => (deps, evs, none)
                    | some resultsJ =>
                        match pySlice5 resultsJ with
                        | .error _ => (dictSet deps field (.arr []), evs, none)
                        | .ok items =>
                            (dictSet deps field (.arr (processItems items)), evs, none))
           | _ => (deps, evs, none))
  | _ => (deps, [], none)

/-- The per-type traversal over a catalogue of resource types: a type absent
from the related-links map is skipped without any request; an uncaught error
from the membership test itself propagates (exc), and a transport failure
aborts the run (exit). -/
def depsLoop (net : Net) (related_fields : Json) :
    List (String × String) → List (String × Json) → PyR (List (String × Json)) × List Ev
  | [], deps => (.ok deps, [])
  | (field, _label) :: rest, deps =>
      match pyContains field related_fields with
      | .error m => (.exc m, [])
      | .ok false => depsLoop net related_fields rest deps
      | .ok true =>
          match pyIndex related_fields field with
          | .error _ => depsLoop net related_fields rest deps
          | .ok url =>
              match processType net deps field url with
              | (_, evs, some c) => (.exit c, evs)
              | (deps2, evs, none) =>
                  let r := depsLoop net related_fields rest deps2
                  (r.1, evs ++ r.2)

/-- Python dependencies[key].append(item) preceded by creating the key
with an empty list when absent; appending to an existing non-list value
raises (AttributeError). -/
def dictAppend (deps : List (String × Json)) (key : String) (item : Json) :
    Except String (List (String × Json)) :=
  match lookupField deps key with
  | none => .ok (deps ++ [(key, .arr [item])])
  | some (.arr xs) => .ok (dictSet deps key (.arr (xs ++ [item])))
  | some _ => .error "AttributeError"

/-- One credential of the cross-organization pass (the per-credential try
block): fetch the detail record, read its organization owner, and when the
owner is truthy and differs from the inspected organization id, print the
warning and produce the mismatch entry. Caught exceptions yield no entry;
a transport failure inside the GET helper exits the process. -/
def credStep (net : Net) (org : Json) (cred : Json) :
    Option Json × List Ev × Option Nat :=
  match pyIndex cred "id" with
  | .error _ => (none, [], none)
  | .ok idJ =>
      match AAPClient.get net ("credentials/" ++ idJ.pyStr ++ "/") with
      | (.exit c, evs) => (none, evs, some c)
      | (.exc _, evs) => (none, evs, none)
      | (.ok detail, evs) =>
          match pyGetD detail "organization" .null with
          | .error _ => (none, evs, none)
          | .ok credOrg =>
              if credOrg.truthy then
                match pyIndex org "id" with
                | .error _ => (none, evs, none)
                | .ok orgId =>
                    if Json.pyEq credOrg orgId then (none, evs, none)
                    else
                      match pyIndex cred "name" with
                      | .error _ => (none, evs, none)
                      | .ok nameJ =>
                          (some (.obj [("credential", cred), ("organization_id", credOrg)]),
                           evs ++ [.warn nameJ.pyStr credOrg.pyStr], none)
              else (none, evs, none)

/-- The cross-organization pass over the previewed credentials: each
mismatch entry is appended under the cross_org_credentials key (created on
first use); a failing append is caught per credential. -/
def crossOrgLoop (net : Net) (org : Json) :
    List Json → List (String × Json) → PyR (List (String × Json)) × List Ev
  | [], deps => (.ok deps, [])
  | cred :: rest, deps =>
      match credStep net org cred with
      | (_, evs, some c) => (.exit c, evs)
      | (entry?, evs, none) =>
          let deps2 :=
            match entry? with
            | none => deps
            | some entry =>
                match dictAppend deps "cross_org_credentials" entry with
                | .ok d => d
                | .error _ => deps
          let r := crossOrgLoop net org rest deps2
          (r.1, evs ++ r.2)

/-- The values a Python for loop iterates over: list elements, string
characters, dict keys; iterating anything else raises TypeError. -/
def pyIterate : Json → Except String (List Json)
  | .arr xs => .ok xs
  | .str s => .ok (s.toList.map (fun c => Json.str (String.mk [c])))
  | .obj fs => .ok (fs.map (fun kv => Json.str kv.1))
  | _ => .error "TypeError"

/-- OrganizationInspector._find_dependencies: walk the catalogue against the
related-links map of the organization, then cross-check the previewed
credentials for foreign ownership. -/
def OrganizationInspector.find_dependencies (net : Net) (org : Json) :
    PyR (List (String × Json)) × List Ev :=
  match pyGetD org "related" (.obj []) with
  | .error m => (.exc m, [])
  | .ok related_fields =>
      match pyGetD org "summary_fields" (.obj []) with
      | .error m => (.exc m, [])
      | .ok _summary_fields =>
          match depsLoop net related_fields resource_types [] with
          | (.ok deps, evs) =>
              (match lookupField deps "credentials" with
               | none => (.ok deps, evs)
               | some credsJ =>
                   match pyIterate credsJ with
                   | .error m => (.exc m, evs)
                   | .ok creds =>
                       let r := crossOrgLoop net org creds deps
                       (r.1, evs ++ r.2))
          | (.exc m, evs) => (.exc m, evs)
          | (.exit c, evs) => (.exit c, evs)

/-- OrganizationInspector._display_org_details: print each important field
present on the organization; only the membership test and the read can
raise (on a non-dict organization). -/
def display_fields (org : Json) : List String → Except String Unit
  | [] => .ok ()
  | f :: rest =>
      match pyContains f org with
      | .error m => .error m
      | .ok true =>
          match pyIndex org f with
          | .error m => .error m
          | .ok _ => display_fields org rest
      | .ok false => display_fields org rest

/-- Resolution of the organization identifier: a string int() accepts is
fetched by id (the ValueError from int() is the only exception the handler
catches), anything else goes through the name-filtered list query. -/
def OrganizationInspector.resolve_organization (net : Net) (org_identifier : String) :
    PyR Json × List Ev :=
  match pyInt? org_identifier with
  | some n => AAPClient.get_organization_by_id net n
  | none => AAPClient.get_organization_by_name net org_identifier

/-- OrganizationInspector.inspect_organization: resolve the identifier, exit
with code 1 when the lookup produced nothing truthy, print the details, and
assemble the organization plus dependencies report. -/
def OrganizationInspector.inspect_organization (net : Net) (org_identifier : String) :
    PyR Json × List Ev :=
  match OrganizationInspector.resolve_organization net org_identifier with
  | (.ok org, evs) =>
      if org.truthy then
        match pyIndex org "name" with
        | .error m => (.exc m, evs)
        | .ok _ =>
            match display_fields org important_fields with
            | .error m => (.exc m, evs)
            | .ok _ =>
                match OrganizationInspector.find_dependencies net org with
                | (.ok deps, evs2) =>
                    (.ok (.obj [("organization", org), ("dependencies", .obj deps)]),
                     evs ++ evs2)
                | (.exc m, evs2) => (.exc m, evs ++ evs2)
                | (.exit c, evs2) => (.exit c, evs ++ evs2)
      else (.exit 1, evs ++ [.notFound org_identifier])
  | (.exc m, evs) => (.exc m, evs)
  | (.exit c, evs) => (.exit c, evs)

/-- The tail of main after client construction: inspect, then export only
when the run succeeded and the export flag was given. The boolean reports
whether the export file was written. -/
def main_run (net : Net) (org_identifier : String) (exportRequested : Bool) :
    PyR Json × List Ev × Bool :=
  match OrganizationInspector.inspect_organization net org_identifier with
  | (.ok result, evs) => (.ok result, evs, exportRequested)
  | (.exc m, evs) => (.exc m, evs, false)
  | (.exit c, evs) => (.exit c, evs, false)

/-! ### Dictionary lemmas -/

theorem lookupField_setAll (deps : List (String × Json)) (key : String) (v : Json) :
    lookupField (deps.map (fun kv => (kv.1, if kv.1 = key then v else kv.2))) key
      = if hasField deps key then some v else none := by
  induction deps with
  | nil => simp [lookupField, hasField]
  | cons kv rest ih =>
      obtain ⟨k0, v0⟩ := kv
      by_cases hk : k0 = key
      · subst hk
        simp [lookupField, hasField]
      · simp only [List.map_cons, lookupField, if_neg hk]
        rw [ih]
        simp [hasField, lookupField, hk]

theorem lookupField_setAll_other (deps : List (String × Json)) (key k : String)
    (v : Json) (hne : k ≠ key) :
    lookupField (deps.map (fun kv => (kv.1, if kv.1 = key then v else kv.2))) k
      = lookupField deps k := by
  induction deps with
  | nil => simp
  | cons kv rest ih =>
      obtain ⟨k0, v0⟩ := kv
      simp only [List.map_cons, lookupField]
      by_cases hk : k0 = k
      · subst hk
        rw [if_pos rfl, if_pos rfl, if_neg hne]
      · rw [if_neg hk, if_neg hk]
        exact ih

theorem lookupField_append_last (deps : List (String × Json)) (key : String) (v : Json)
    (h : lookupField deps key = none) :
    lookupField (deps ++ [(key, v)]) key = some v := by
  induction deps with
  | nil => simp [lookupField]
  | cons kv rest ih =>
      obtain ⟨k0, v0⟩ := kv
      simp only [lookupField] at h
      simp only [List.cons_append, lookupField]
      split at h
      · exact absurd h (by simp)
      · rename_i hk
        rw [if_neg hk]
        exact ih h

theorem lookupField_append_other (deps : List (String × Json)) (key k : String)
    (v : Json) (hne : k ≠ key) :
    lookupField (deps ++ [(key, v)]) k = lookupField deps k := by
  induction deps with
  | nil =>
      simp only [List.nil_append, lookupField]
      rw [if_neg (fun h => hne h.symm)]
  | cons kv rest ih =>
      obtain ⟨k0, v0⟩ := kv
      simp only [List.cons_append, lookupField]
      split
      · rfl
      · exact ih

theorem lookupField_dictSet_self (deps : List (String × Json)) (key : String) (v : Json) :
    lookupField (dictSet deps key v) key = some v := by
  unfold dictSet
  by_cases h : hasField deps key
  · rw [if_pos h, lookupField_setAll, if_pos h]
  · rw [if_neg h]
    apply lookupField_append_last
    simp only [hasField, Option.isSome_iff_exists] at h
    cases hl : lookupField deps key with
    | none => rfl
    | some w => exact absurd ⟨w, hl⟩ h

theorem lookupField_dictSet_other (deps : List (String × Json)) (key k : String)
    (v : Json) (hne : k ≠ key) :
    lookupField (dictSet deps key v) k = lookupField deps k := by
  unfold dictSet
  by_cases h : hasField deps key
  · rw [if_pos h, lookupField_setAll_other _ _ _ _ hne]
  · rw [if_neg h, lookupField_append_other _ _ _ _ hne]

theorem dictSet_length (deps : List (String × Json)) (key : String) (v : Json) :
    (dictSet deps key v).length
      = if hasField deps key then deps.length else deps.length + 1 := by
  unfold dictSet
  by_cases h : hasField deps key
  · rw [if_pos h, if_pos h, List.length_map]
  · rw [if_neg h, if_neg h]
    simp

theorem mem_dictSet (deps : List (String × Json)) (key : String) (v : Json)
    (kv : String × Json) (h : kv ∈ dictSet deps key v) : kv ∈ deps ∨ kv.2 = v := by
  unfold dictSet at h
  by_cases hh : hasField deps key
  · rw [if_pos hh] at h
    obtain ⟨kv0, hkv0, heq⟩ := List.mem_map.mp h
    by_cases hk : kv0.1 = key
    · right
      rw [← heq]
      simp [hk]
    · left
      rw [← heq]
      simpa [hk] using hkv0
  · rw [if_neg hh] at h
    rcases List.mem_append.mp h with h1 | h2
    · exact Or.inl h1
    · right
      simp only [List.mem_singleton] at h2
      rw [h2]

/-- C10: in the per-type traversal, a key for a resource type present in the
related-links map is created in the dependency map exactly when the fetched
first page is a dict whose count field compares greater than zero and which
contains a results field; a page whose count is zero (or unreadable) or that
lacks results contributes no key to the returned map. -/
theorem processType_creates_key_iff (net : Net) (deps : List (String × Json))
    (field : String) (url : Json) (h0 : lookupField deps field = none) :
    (lookupField (processType net deps field url).1 field).isSome = true ↔
      ∃ u fs, url = .str u ∧
        (AAPClient.get_related_data net u).1 = .ok (.obj fs) ∧
        pyGt0 ((lookupField fs "count").getD (.num 0)) = .ok true ∧
        (lookupField fs "results").isSome = true := by
  cases url with
  | str u =>
      rcases hgr : AAPClient.get_related_data net u with ⟨r, evs0⟩
      cases r with
      | exit c => simp [processType, hgr, h0]
      | exc m => simp [processType, hgr, h0]
      | ok data =>
          cases data with
          | obj fs =>
              cases hgt : pyGt0 ((lookupField fs "count").getD (.num 0)) with
              | error m => simp [processType, hgr, hgt, h0]
              | ok b =>
                  cases b with
                  | false => simp [processType, hgr, hgt, h0]
                  | true =>
                      cases hres : lookupField fs "results" with
                      | none => simp [processType, hgr, hgt, hres, h0]
                      | some resultsJ =>
                          cases hsl : pySlice5 resultsJ with
                          | error m =>
                              simp [processType, hgr, hgt, hres, hsl,
                                    lookupField_dictSet_self]
                          | ok items =>
                              simp [processType, hgr, hgt, hres, hsl,
                                    lookupField_dictSet_self]
          | null => simp [processType, hgr, h0]
          | bool b => simp [processType, hgr, h0]
          | num n => simp [processType, hgr, h0]
          | str s => simp [processType, hgr, h0]
          | arr xs => simp [processType, hgr, h0]
  | null => simp [processType, h0]
  | bool b => simp [processType, h0]
  | num n => simp [processType, h0]
  | arr xs => simp [processType, h0]
  | obj fs => simp [processType, h0]

/-- A remote endpoint used to witness key creation: every endpoint answers
with a page of count 2 that carries a results field. -/
def netKeyDemo : Net := fun _ => .ok (.obj [("count", .num 2), ("results", .arr [])])

theorem processType_creates_key_iff_witness :
    (lookupField (processType netKeyDemo [] "teams" (.str "u")).1 "teams").isSome = true :=
  (processType_creates_key_iff netKeyDemo [] "teams" (.str "u") rfl).mpr
    ⟨"u", [("count", .num 2), ("results", .arr [])], rfl, rfl, rfl, rfl⟩

/-- The remote that echoes every endpoint back, used for request-routing
counterexamples and witnesses. -/
def netEcho : Net := fun e => .ok (.str e)

/-- Modelled from the spec wording for comparison: the suffix of the URL
after the first occurrence of the version-root marker. -/
def specSuffixAfterMarker (url : String) : Option String :=
  (splitFirst apiMarker url.toList).map (fun pq => String.mk pq.2)

/-- C5 counterexample: on an absolute URL containing the version-root marker
twice, the function requests the field between the two occurrences, not the
suffix after the first marker as the claim states. -/
theorem get_related_data_suffix_counterexample :
    (AAPClient.get_related_data netEcho "http://h/api/v2/a/api/v2/b").2 = [Ev.req "a"]
    ∧ specSuffixAfterMarker "http://h/api/v2/a/api/v2/b" = some "a/api/v2/b"
    ∧ ("a" : String) ≠ "a/api/v2/b" := ⟨rfl, rfl, by decide⟩

theorem pySplit_ne_nil (sep : List Char) (s : List Char) : pySplit sep s ≠ [] := by
  cases hsf : splitFirst sep s with
  | none => rw [pySplit_single sep s hsf]; simp
  | some pq =>
      obtain ⟨pre, post⟩ := pq
      rw [pySplit, pySplitF_succ, hsf]
      simp

/-- C5 (amended): for an absolute URL (starting with http) that contains the
version-root marker, the function requests the second field of the split,
the portion between the first occurrence of the marker and the next one,
which is the suffix after the marker exactly when the marker occurs once;
an absolute URL without the marker returns None and issues no request; a
relative path is requested directly with leading slashes stripped. -/
theorem get_related_data_routing (net : Net) (u : String) :
    (pyStartswith "http" u = true → splitFirst apiMarker u.toList = none →
        AAPClient.get_related_data net u = (.ok .null, []))
    ∧ (pyStartswith "http" u = true →
        ∀ pre post, splitFirst apiMarker u.toList = some (pre, post) →
          AAPClient.get_related_data net u
            = AAPClient.get net (String.mk ((pySplit apiMarker post).headD []))
          ∧ (splitFirst apiMarker post = none →
              String.mk ((pySplit apiMarker post).headD []) = String.mk post))
    ∧ (pyStartswith "http" u = false →
        AAPClient.get_related_data net u
          = AAPClient.get net (String.mk (u.toList.dropWhile (fun c => c = '/')))) := by
  refine ⟨?_, ?_, ?_⟩
  · intro h1 h2
    rw [AAPClient.get_related_data, if_pos h1, pySplit_single apiMarker u.toList h2]
  · intro h1 pre post h2
    rw [AAPClient.get_related_data, if_pos h1,
        pySplit_cons apiMarker apiMarker_ne_nil u.toList pre post h2]
    cases hsf2 : splitFirst apiMarker post with
    | none =>
        rw [pySplit_single apiMarker post hsf2]
        exact ⟨rfl, fun _ => rfl⟩
    | some pq2 =>
        obtain ⟨pre2, post2⟩ := pq2
        rw [pySplit_cons apiMarker apiMarker_ne_nil post pre2 post2 hsf2]
        constructor
        · rfl
        · intro hc
          exact Option.noConfusion hc
  · intro h1
    rw [AAPClient.get_related_data, if_neg (by simp [h1])]

/-- Witness for the amended C5 at a concrete single-marker URL. -/
theorem get_related_data_routing_witness :
    AAPClient.get_related_data netEcho "http://h/api/v2/x/y/"
      = AAPClient.get netEcho (String.mk ((pySplit apiMarker "x/y/".toList).headD [])) :=
  ((get_related_data_routing netEcho "http://h/api/v2/x/y/").2.1 rfl
     "http://h".toList "x/y/".toList rfl).1

/-- The endpoints of the GET requests among a run's events, in order. -/
def reqs (evs : List Ev) : List String :=
  evs.filterMap (fun e => match e with | .req ep => some ep | _ => none)

theorem reqs_get (net : Net) (ep : String) : reqs (AAPClient.get net ep).2 = [ep] := by
  unfold AAPClient.get
  cases net ep <;> simp [reqs]

/-- C2: a string int() accepts resolves through the fetch-by-id endpoint and
that endpoint only (the name query is never issued); any other string
resolves through exactly one name-filtered list query, whose first result is
returned, or None when the result list is empty. -/
theorem resolve_organization_mode (net : Net) (s : String) :
    (∀ n, pyInt? s = some n →
        OrganizationInspector.resolve_organization net s
          = AAPClient.get_organization_by_id net n
        ∧ reqs (OrganizationInspector.resolve_organization net s).2
            = ["organizations/" ++ toString n ++ "/"])
    ∧ (pyInt? s = none →
        OrganizationInspector.resolve_organization net s
          = AAPClient.get_organization_by_name net s
        ∧ reqs (OrganizationInspector.resolve_organization net s).2
            = ["organizations/?name=" ++ s]
        ∧ ∀ fs, net ("organizations/?name=" ++ s) = .ok (.obj fs) →
            (lookupField fs "results" = some (.arr []) →
              (OrganizationInspector.resolve_organization net s).1 = .ok .null)
            ∧ ∀ x t, lookupField fs "results" = some (.arr (x :: t)) →
              (OrganizationInspector.resolve_organization net s).1 = .ok x) := by
  constructor
  · intro n hn
    constructor
    · rw [OrganizationInspector.resolve_organization, hn]
    · rw [OrganizationInspector.resolve_organization, hn]
      exact reqs_get net ("organizations/" ++ toString n ++ "/")
  · intro hn
    refine ⟨by rw [OrganizationInspector.resolve_organization, hn], ?_, ?_⟩
    · rw [OrganizationInspector.resolve_organization, hn,
          AAPClient.get_organization_by_name]
      rcases hg : AAPClient.get net ("organizations/?name=" ++ s) with ⟨r, evs0⟩
      have hevs : reqs evs0 = ["organizations/?name=" ++ s] := by
        have := reqs_get net ("organizations/?name=" ++ s)
        rw [hg] at this
        exact this
      cases r with
      | exit c => simpa using hevs
      | exc m => simpa using hevs
      | ok response =>
          cases hpg : pyGetD response "results" (.arr []) with
          | error m => simpa [hpg] using hevs
          | ok results =>
              by_cases ht : results.truthy
              · cases hix : pyIndex0 results with
                | ok first => simpa [hpg, ht, hix] using hevs
                | error m => simpa [hpg, ht, hix] using hevs
              · simpa [hpg, ht] using hevs
    · intro fs hfs
      constructor
      · intro hres
        rw [OrganizationInspector.resolve_organization, hn]
        simp [AAPClient.get_organization_by_name, AAPClient.get, hfs, pyGetD, hres,
              Json.truthy]
      · intro x t hres
        rw [OrganizationInspector.resolve_organization, hn]
        simp [AAPClient.get_organization_by_name, AAPClient.get, hfs, pyGetD, hres,
              Json.truthy, pyIndex0]

/-- The remote used by the C2 witness: the staging name query has an empty
result list, and every other endpoint answers with an organization record. -/
def netOrg : Net := fun e =>
  if e = "organizations/?name=staging" then .ok (.obj [("results", .arr [])])
  else .ok (.obj [("id", .num 7)])

theorem resolve_organization_mode_witness :
    reqs (OrganizationInspector.resolve_organization netOrg "42").2
      = ["organizations/42/"]
    ∧ (OrganizationInspector.resolve_organization netOrg "staging").1 = .ok .null :=
  ⟨((resolve_organization_mode netOrg "42").1 42 rfl).2,
   (((resolve_organization_mode netOrg "staging").2 rfl).2.2
      [("results", .arr [])] rfl).1 rfl⟩

/-- C7: a run whose identifier is non-numeric and whose name query returns an
empty result list exits with code 1, emits the not-found diagnostic on the
error stream, and writes no export file even though the export flag is set. -/
theorem main_notFound_exits (net : Net) (s : String) (fs : List (String × Json))
    (hnum : pyInt? s = none)
    (hresp : net ("organizations/?name=" ++ s) = .ok (.obj fs))
    (hempty : lookupField fs "results" = some (.arr [])) :
    main_run net s true
      = (.exit 1, [Ev.req ("organizations/?name=" ++ s), Ev.notFound s], false) := by
  simp [main_run, OrganizationInspector.inspect_organization,
        OrganizationInspector.resolve_organization, hnum,
        AAPClient.get_organization_by_name, AAPClient.get, hresp, pyGetD, hempty,
        Json.truthy]

/-- The remote on which every name query has an empty result list. -/
def netNoMatch : Net := fun _ => .ok (.obj [("results", .arr [])])

theorem main_notFound_exits_witness :
    main_run netNoMatch "not-found-org" true
      = (.exit 1, [Ev.req "organizations/?name=not-found-org",
                   Ev.notFound "not-found-org"], false) :=
  main_notFound_exits netNoMatch "not-found-org" [("results", .arr [])] rfl rfl rfl

theorem processItems_length_le : ∀ items : List Json,
    (processItems items).length ≤ items.length := by
  intro items
  induction items with
  | nil => simp [processItems]
  | cons item rest ih =>
      simp only [processItems]
      cases previewItem item with
      | ok d => simp only [List.length_cons]; omega
      | error m => simp

theorem pySlice5_length (j : Json) (items : List Json) (h : pySlice5 j = .ok items) :
    items.length ≤ 5 := by
  cases j with
  | arr xs =>
      simp only [pySlice5, Except.ok.injEq] at h
      rw [← h]
      simp
  | str s =>
      simp only [pySlice5, Except.ok.injEq] at h
      rw [← h]
      simp
  | null => simp [pySlice5] at h
  | bool b => simp [pySlice5] at h
  | num n => simp [pySlice5] at h
  | obj fs => simp [pySlice5] at h

/-- The per-type body either leaves the dependency map unchanged or stores a
list of at most five preview entries under its own key. -/
theorem processType_shape (net : Net) (deps : List (String × Json)) (field : String)
    (url : Json) :
    (processType net deps field url).1 = deps
    ∨ ∃ xs, xs.length ≤ 5
        ∧ (processType net deps field url).1 = dictSet deps field (.arr xs) := by
  cases url with
  | str u =>
      rcases hgr : AAPClient.get_related_data net u with ⟨r, evs0⟩
      cases r with
      | exit c => simp [processType, hgr]
      | exc m => simp [processType, hgr]
      | ok data =>
          cases data with
          | obj fs =>
              cases hgt : pyGt0 ((lookupField fs "count").getD (.num 0)) with
              | error m => simp [processType, hgr, hgt]
              | ok b =>
                  cases b with
                  | false => simp [processType, hgr, hgt]
                  | true =>
                      cases hres : lookupField fs "results" with
                      | none => simp [processType, hgr, hgt, hres]
                      | some resultsJ =>
                          cases hsl : pySlice5 resultsJ with
                          | error m =>
                              right
                              exact ⟨[], by simp, by simp [processType, hgr, hgt, hres, hsl]⟩
                          | ok items =>
                              right
                              refine ⟨processItems items, ?_,
                                      by simp [processType, hgr, hgt, hres, hsl]⟩
                              calc (processItems items).length
                                  ≤ items.length := processItems_length_le items
                                _ ≤ 5 := pySlice5_length resultsJ items hsl
          | null => simp [processType, hgr]
          | bool b => simp [processType, hgr]
          | num n => simp [processType, hgr]
          | str s => simp [processType, hgr]
          | arr xs => simp [processType, hgr]
  | null => simp [processType]
  | bool b => simp [processType]
  | num n => simp [processType]
  | arr xs => simp [processType]
  | obj fs => simp [processType]

/-- Keys other than the type's own key are untouched by the per-type body. -/
theorem processType_other (net : Net) (deps : List (String × Json)) (field : String)
    (url : Json) (k : String) (hk : k ≠ field) :
    lookupField (processType net deps field url).1 k = lookupField deps k := by
  rcases processType_shape net deps field url with h | ⟨xs, _, h⟩
  · rw [h]
  · rw [h, lookupField_dictSet_other _ _ _ _ hk]

/-- The per-type body grows the dependency map by at most one key. -/
theorem processType_length (net : Net) (deps : List (String × Json)) (field : String)
    (url : Json) :
    (processType net deps field url).1.length ≤ deps.length + 1 := by
  rcases processType_shape net deps field url with h | ⟨xs, _, h⟩
  · rw [h]; omega
  · rw [h, dictSet_length]
    split <;> omega

/-- Every entry of the per-type body's result was already present or carries
a list of at most five preview entries. -/
theorem processType_mem (net : Net) (deps : List (String × Json)) (field : String)
    (url : Json) (kv : String × Json) (h : kv ∈ (processType net deps field url).1) :
    kv ∈ deps ∨ ∃ xs, kv.2 = Json.arr xs ∧ xs.length ≤ 5 := by
  rcases processType_shape net deps field url with hs | ⟨xs, hlen, hs⟩
  · rw [hs] at h
    exact Or.inl h
  · rw [hs] at h
    rcases mem_dictSet _ _ _ _ h with h1 | h2
    · exact Or.inl h1
    · exact Or.inr ⟨xs, h2, hlen⟩

theorem get_ok (net : Net) (ep : String) (j : Json) (h : net ep = .ok j) :
    AAPClient.get net ep = (.ok j, [.req ep]) := by
  simp [AAPClient.get, h]

/-- On a transport-error-free remote, the related-data fetch never exits. -/
theorem get_related_data_no_exit (net : Net) (hnet : ∀ e, ∃ j, net e = Except.ok j)
    (u : String) : ∃ j evs, AAPClient.get_related_data net u = (.ok j, evs) := by
  rw [AAPClient.get_related_data]
  by_cases hp : pyStartswith "http" u
  · rw [if_pos hp]
    rcases hps : pySplit apiMarker u.toList with _ | ⟨a, _ | ⟨b, rest⟩⟩
    · exact ⟨.null, [], rfl⟩
    · exact ⟨.null, [], rfl⟩
    · obtain ⟨j, hj⟩ := hnet (String.mk b)
      exact ⟨j, [.req (String.mk b)], get_ok net _ j hj⟩
  · rw [if_neg hp]
    obtain ⟨j, hj⟩ := hnet (String.mk (u.toList.dropWhile (fun c => c = '/')))
    exact ⟨j, _, get_ok net _ j hj⟩

/-- On a transport-error-free remote, the per-type body never exits: every
error of the iteration is caught by the per-type handler. -/
theorem processType_no_exit (net : Net) (hnet : ∀ e, ∃ j, net e = Except.ok j)
    (deps : List (String × Json)) (field : String) (url : Json) :
    (processType net deps field url).2.2 = none := by
  cases url with
  | str u =>
      obtain ⟨j, evs, hj⟩ := get_related_data_no_exit net hnet u
      cases j with
      | obj fs =>
          cases hgt : pyGt0 ((lookupField fs "count").getD (.num 0)) with
          | error m => simp [processType, hj, hgt]
          | ok b =>
              cases b with
              | false => simp [processType, hj, hgt]
              | true =>
                  cases hres : lookupField fs "results" with
                  | none => simp [processType, hj, hgt, hres]
                  | some resultsJ =>
                      cases hsl : pySlice5 resultsJ with
                      | error m => simp [processType, hj, hgt, hres, hsl]
                      | ok items => simp [processType, hj, hgt, hres, hsl]
      | null => simp [processType, hj]
      | bool b => simp [processType, hj]
      | num n => simp [processType, hj]
      | str s => simp [processType, hj]
      | arr xs => simp [processType, hj]
  | null => simp [processType]
  | bool b => simp [processType]
  | num n => simp [processType]
  | arr xs => simp [processType]
  | obj fs => simp [processType]

/-- On a transport-error-free remote, the per-type traversal completes over
the whole catalogue, whatever each page contains. -/
theorem depsLoop_completes (net : Net) (hnet : ∀ e, ∃ j, net e = Except.ok j)
    (R : List (String × Json)) :
    ∀ (types : List (String × String)) (deps : List (String × Json)),
      ∃ deps2 evs, depsLoop net (.obj R) types deps = (.ok deps2, evs) := by
  intro types
  induction types with
  | nil => intro deps; exact ⟨deps, [], rfl⟩
  | cons t rest ih =>
      intro deps
      obtain ⟨field, label⟩ := t
      by_cases hc : hasField R field
      · cases hl : lookupField R field with
        | none => simp [hasField, hl] at hc
        | some url =>
            rcases hpt : processType net deps field url with ⟨deps1, evs1, o⟩
            have ho : o = none := by
              have := processType_no_exit net hnet deps field url
              rw [hpt] at this
              exact this
            subst ho
            obtain ⟨deps2, evs2, hrest⟩ := ih deps1
            refine ⟨deps2, evs1 ++ evs2, ?_⟩
            simp [depsLoop, pyContains, hc, pyIndex, hl, hpt, hrest]
      · obtain ⟨deps2, evs2, hrest⟩ := ih deps
        refine ⟨deps2, evs2, ?_⟩
        simp [depsLoop, pyContains, hc, hrest]

theorem lookupField_mem : ∀ (deps : List (String × Json)) (k : String) (v : Json),
    lookupField deps k = some v → (k, v) ∈ deps := by
  intro deps
  induction deps with
  | nil => intro k v h; simp [lookupField] at h
  | cons kv rest ih =>
      intro k v h
      obtain ⟨k0, v0⟩ := kv
      simp only [lookupField] at h
      split at h
      · rename_i hk
        simp only [Option.some.injEq] at h
        subst hk
        subst h
        exact List.mem_cons_self _ _
      · exact List.mem_cons_of_mem _ (ih k v h)

/-- Every entry of a completed per-type traversal that was not already in the
starting map carries a list of at most five preview entries. -/
theorem depsLoop_mem (net : Net) (rf : Json) :
    ∀ (types : List (String × String)) (deps deps2 : List (String × Json))
      (evs : List Ev), depsLoop net rf types deps = (.ok deps2, evs) →
      ∀ kv ∈ deps2, kv ∈ deps ∨ ∃ xs, kv.2 = Json.arr xs ∧ xs.length ≤ 5 := by
  intro types
  induction types with
  | nil =>
      intro deps deps2 evs h kv hkv
      simp only [depsLoop, Prod.mk.injEq, PyR.ok.injEq] at h
      rw [← h.1] at hkv
      exact Or.inl hkv
  | cons t rest ih =>
      intro deps deps2 evs h kv hkv
      obtain ⟨field, label⟩ := t
      simp only [depsLoop] at h
      cases hpc : pyContains field rf with
      | error m => simp [hpc] at h
      | ok b =>
          cases b with
          | false =>
              simp only [hpc] at h
              exact ih deps deps2 evs h kv hkv
          | true =>
              simp only [hpc] at h
              cases hpi : pyIndex rf field with
              | error m =>
                  simp only [hpi] at h
                  exact ih deps deps2 evs h kv hkv
              | ok url =>
                  simp only [hpi] at h
                  rcases hpt : processType net deps field url with ⟨deps1, evs1, o⟩
                  simp only [hpt] at h
                  cases o with
                  | some c => simp at h
                  | none =>
                      rcases hr : depsLoop net rf rest deps1 with ⟨r1, evs2⟩
                      simp only [hr] at h
                      cases r1 with
                      | ok d =>
                          simp only [Prod.mk.injEq, PyR.ok.injEq] at h
                          have hd : d = deps2 := h.1
                          subst hd
                          rcases ih deps1 d evs2 hr kv hkv with h1 | h2
                          · have := processType_mem net deps field url kv
                            rw [hpt] at this
                            exact this h1
                          · exact Or.inr h2
                      | exc m => simp at h
                      | exit c => simp at h

/-- On a transport-error-free remote, one credential check never exits: all
its errors are caught by the per-credential handler. -/
theorem credStep_no_exit (net : Net) (hnet : ∀ e, ∃ j, net e = Except.ok j)
    (org cred : Json) : (credStep net org cred).2.2 = none := by
  cases hid : pyIndex cred "id" with
  | error m => simp [credStep, hid]
  | ok idJ =>
      obtain ⟨j, hj⟩ := hnet ("credentials/" ++ idJ.pyStr ++ "/")
      have hget := get_ok net _ j hj
      cases hgo : pyGetD j "organization" .null with
      | error m => simp [credStep, hid, hget, hgo]
      | ok credOrg =>
          by_cases ht : credOrg.truthy
          · cases hoi : pyIndex org "id" with
            | error m => simp [credStep, hid, hget, hgo, ht, hoi]
            | ok orgId =>
                by_cases he : Json.pyEq credOrg orgId
                · simp [credStep, hid, hget, hgo, ht, hoi, he]
                · cases hnm : pyIndex cred "name" with
                  | error m => simp [credStep, hid, hget, hgo, ht, hoi, he, hnm]
                  | ok nameJ => simp [credStep, hid, hget, hgo, ht, hoi, he, hnm]
          · simp [credStep, hid, hget, hgo, ht]

/-- On a transport-error-free remote, the cross-organization pass completes. -/
theorem crossOrgLoop_completes (net : Net) (hnet : ∀ e, ∃ j, net e = Except.ok j)
    (org : Json) : ∀ (creds : List Json) (deps : List (String × Json)),
      ∃ deps2 evs, crossOrgLoop net org creds deps = (.ok deps2, evs) := by
  intro creds
  induction creds with
  | nil => intro deps; exact ⟨deps, [], rfl⟩
  | cons cred rest ih =>
      intro deps
      rcases hcs : credStep net org cred with ⟨entry?, evs1, o⟩
      have ho : o = none := by
        have := credStep_no_exit net hnet org cred
        rw [hcs] at this
        exact this
      subst ho
      cases entry? with
      | none =>
          obtain ⟨deps2, evs2, hrest⟩ := ih deps
          exact ⟨deps2, evs1 ++ evs2, by simp [crossOrgLoop, hcs, hrest]⟩
      | some entry =>
          cases hda : dictAppend deps "cross_org_credentials" entry with
          | ok d =>
              obtain ⟨deps2, evs2, hrest⟩ := ih d
              exact ⟨deps2, evs1 ++ evs2, by simp [crossOrgLoop, hcs, hda, hrest]⟩
          | error m =>
              obtain ⟨deps2, evs2, hrest⟩ := ih deps
              exact ⟨deps2, evs1 ++ evs2, by simp [crossOrgLoop, hcs, hda, hrest]⟩

/-- C3 (amended): when every request succeeds at the transport level and the
organization's related map is a dict, every error raised while processing a
resource type's page (malformed pages, wrong types, failing item reads) is
caught within that type's iteration and the traversal runs to completion over
all resource types and the credential pass; a transport-level request failure
is, by contrast, fatal inside the GET helper and aborts the remaining
traversal with exit code 1 (see the counterexample). -/
theorem find_dependencies_ok (net : Net) (hnet : ∀ e, ∃ j, net e = Except.ok j)
    (org : Json) (R : List (String × Json))
    (hrel : pyGetD org "related" (.obj []) = .ok (.obj R)) :
    ∃ deps evs, OrganizationInspector.find_dependencies net org = (.ok deps, evs) := by
  cases org with
  | obj ofs =>
      obtain ⟨deps1, evs1, hloop⟩ := depsLoop_completes net hnet R resource_types []
      cases hcr : lookupField deps1 "credentials" with
      | none =>
          refine ⟨deps1, evs1, ?_⟩
          simp only [OrganizationInspector.find_dependencies, hrel]
          simp [pyGetD, hloop, hcr]
      | some credsJ =>
          have hmem := depsLoop_mem net (.obj R) resource_types [] deps1 evs1 hloop
            ("credentials", credsJ) (lookupField_mem deps1 "credentials" credsJ hcr)
          rcases hmem with h1 | ⟨xs, hxs, hlen⟩
          · simp at h1
          · obtain ⟨deps2, evs2, hcross⟩ :=
              crossOrgLoop_completes net hnet (.obj ofs) xs deps1
            refine ⟨deps2, evs1 ++ evs2, ?_⟩
            simp only [OrganizationInspector.find_dependencies, hrel]
            simp only at hxs
            subst hxs
            simp [pyGetD, hloop, hcr, pyIterate, hcross]
  | null => simp [pyGetD] at hrel
  | bool b => simp [pyGetD] at hrel
  | num n => simp [pyGetD] at hrel
  | str s => simp [pyGetD] at hrel
  | arr xs => simp [pyGetD] at hrel

/-- The remote that fails the teams page at transport level and succeeds
elsewhere. -/
def netFailTeams : Net :=
  fun e => if e = "teams_url" then .error "boom" else .ok (.obj [])

/-- An organization with two related resource types, teams and users. -/
def orgTeamsUsers : Json :=
  .obj [("id", .num 1),
        ("related", .obj [("teams", .str "teams_url"), ("users", .str "users_url")])]

/-- C3 counterexample: a transport error while fetching the first page of the
teams type is not caught per type: the run exits with code 1 and the users
type is never requested. -/
theorem find_dependencies_abort_counterexample :
    OrganizationInspector.find_dependencies netFailTeams orgTeamsUsers
      = (.exit 1, [Ev.req "teams_url", Ev.reqFailed "teams_url"]) := rfl

/-- The remote with an empty dict at every endpoint. -/
def netEmptyPages : Net := fun _ => .ok (.obj [])

theorem find_dependencies_ok_witness :
    ∃ deps evs, OrganizationInspector.find_dependencies netEmptyPages orgTeamsUsers
      = (.ok deps, evs) :=
  find_dependencies_ok netEmptyPages (fun _ => ⟨.obj [], rfl⟩) orgTeamsUsers
    [("teams", .str "teams_url"), ("users", .str "users_url")] rfl

/-- The mismatch entries the cross-organization pass produces, in credential
order. -/
def credEntries (net : Net) (org : Json) (creds : List Json) : List Json :=
  creds.filterMap (fun c => (credStep net org c).1)

/-- The cross_org_credentials value after appending a run of entries to the
bucket: created as a list on first use, extended when already a list, and
left alone when the existing value is not a list (every append raises). -/
def joinCross : Option Json → List Json → Option Json
  | none, [] => none
  | none, ms => some (.arr ms)
  | some (.arr xs), ms => some (.arr (xs ++ ms))
  | some v, _ => some v

/-- The cross-organization pass only ever touches the cross_org_credentials
key, whose final value joins the produced mismatch entries onto its starting
value. -/
theorem crossOrgLoop_char (net : Net) (org : Json) :
    ∀ (creds : List Json) (deps deps2 : List (String × Json)) (evs : List Ev),
      crossOrgLoop net org creds deps = (.ok deps2, evs) →
      (∀ k, k ≠ "cross_org_credentials" → lookupField deps2 k = lookupField deps k)
      ∧ lookupField deps2 "cross_org_credentials"
          = joinCross (lookupField deps "cross_org_credentials")
              (credEntries net org creds) := by
  intro creds
  induction creds with
  | nil =>
      intro deps deps2 evs h
      simp only [crossOrgLoop, Prod.mk.injEq, PyR.ok.injEq] at h
      obtain ⟨h1, _⟩ := h
      subst h1
      refine ⟨fun k _ => rfl, ?_⟩
      cases hlc : lookupField deps "cross_org_credentials" with
      | none => simp [credEntries, joinCross]
      | some v =>
          cases v <;> simp [credEntries, joinCross]
  | cons cred rest ih =>
      intro deps deps2 evs h
      rcases hcs : credStep net org cred with ⟨entry?, evs1, o⟩
      simp only [crossOrgLoop, hcs] at h
      cases o with
      | some c => simp at h
      | none =>
          cases entry? with
          | none =>
              rcases hr : crossOrgLoop net org rest deps with ⟨r1, evs2⟩
              simp only [hr] at h
              cases r1 with
              | ok d =>
                  simp only [Prod.mk.injEq, PyR.ok.injEq] at h
                  obtain ⟨hd, _⟩ := h
                  subst hd
                  have hih := ih deps d evs2 hr
                  refine ⟨hih.1, ?_⟩
                  rw [hih.2]
                  simp [credEntries, List.filterMap_cons, hcs]
              | exc m => simp at h
              | exit c => simp at h
          | some entry =>
              have hentries : credEntries net org (cred :: rest)
                  = entry :: credEntries net org rest := by
                simp [credEntries, List.filterMap_cons, hcs]
              cases hlc : lookupField deps "cross_org_credentials" with
              | none =>
                  simp only [dictAppend, hlc] at h
                  rcases hr : crossOrgLoop net org rest
                      (deps ++ [("cross_org_credentials", .arr [entry])]) with ⟨r1, evs2⟩
                  simp only [hr] at h
                  cases r1 with
                  | ok d =>
                      simp only [Prod.mk.injEq, PyR.ok.injEq] at h
                      obtain ⟨hd, _⟩ := h
                      subst hd
                      have hih := ih _ d evs2 hr
                      constructor
                      · intro k hk
                        rw [hih.1 k hk, lookupField_append_other _ _ _ _ hk]
                      · rw [hih.2, lookupField_append_last _ _ _ hlc, hentries]
                        cases credEntries net org rest <;> simp [joinCross]
                  | exc m => simp at h
                  | exit c => simp at h
              | some v =>
                  cases v with
                  | arr xs =>
                      simp only [dictAppend, hlc] at h
                      rcases hr : crossOrgLoop net org rest
                          (dictSet deps "cross_org_credentials"
                            (.arr (xs ++ [entry]))) with ⟨r1, evs2⟩
                      simp only [hr] at h
                      cases r1 with
                      | ok d =>
                          simp only [Prod.mk.injEq, PyR.ok.injEq] at h
                          obtain ⟨hd, _⟩ := h
                          subst hd
                          have hih := ih _ d evs2 hr
                          constructor
                          · intro k hk
                            rw [hih.1 k hk, lookupField_dictSet_other _ _ _ _ hk]
                          · rw [hih.2, lookupField_dictSet_self, hentries]
                            cases credEntries net org rest <;> simp [joinCross]
                      | exc m => simp at h
                      | exit c => simp at h
                  | null =>
                      simp only [dictAppend, hlc] at h
                      rcases hr : crossOrgLoop net org rest deps with ⟨r1, evs2⟩
                      simp only [hr] at h
                      cases r1 with
                      | ok d =>
                          simp only [Prod.mk.injEq, PyR.ok.injEq] at h
                          obtain ⟨hd, _⟩ := h
                          subst hd
                          have hih := ih deps d evs2 hr
                          refine ⟨hih.1, ?_⟩
                          rw [hih.2, hlc]
                          simp [joinCross]
                      | exc m => simp at h
                      | exit c => simp at h
                  | bool b =>
                      simp only [dictAppend, hlc] at h
                      rcases hr : crossOrgLoop net org rest deps with ⟨r1, evs2⟩
                      simp only [hr] at h
                      cases r1 with
                      | ok d =>
                          simp only [Prod.mk.injEq, PyR.ok.injEq] at h
                          obtain ⟨hd, _⟩ := h
                          subst hd
                          have hih := ih deps d evs2 hr
                          refine ⟨hih.1, ?_⟩
                          rw [hih.2, hlc]
                          simp [joinCross]
                      | exc m => simp at h
                      | exit c => simp at h
                  | num n =>
                      simp only [dictAppend, hlc] at h
                      rcases hr : crossOrgLoop net org rest deps with ⟨r1, evs2⟩
                      simp only [hr] at h
                      cases r1 with
                      | ok d =>
                          simp only [Prod.mk.injEq, PyR.ok.injEq] at h
                          obtain ⟨hd, _⟩ := h
                          subst hd
                          have hih := ih deps d evs2 hr
                          refine ⟨hih.1, ?_⟩
                          rw [hih.2, hlc]
                          simp [joinCross]
                      | exc m => simp at h
                      | exit c => simp at h
                  | str s =>
                      simp only [dictAppend, hlc] at h
                      rcases hr : crossOrgLoop net org rest deps with ⟨r1, evs2⟩
                      simp only [hr] at h
                      cases r1 with
                      | ok d =>
                          simp only [Prod.mk.injEq, PyR.ok.injEq] at h
                          obtain ⟨hd, _⟩ := h
                          subst hd
                          have hih := ih deps d evs2 hr
                          refine ⟨hih.1, ?_⟩
                          rw [hih.2, hlc]
                          simp [joinCross]
                      | exc m => simp at h
                      | exit c => simp at h
                  | obj fs =>
                      simp only [dictAppend, hlc] at h
                      rcases hr : crossOrgLoop net org rest deps with ⟨r1, evs2⟩
                      simp only [hr] at h
                      cases r1 with
                      | ok d =>
                          simp only [Prod.mk.injEq, PyR.ok.injEq] at h
                          obtain ⟨hd, _⟩ := h
                          subst hd
                          have hih := ih deps d evs2 hr
                          refine ⟨hih.1, ?_⟩
                          rw [hih.2, hlc]
                          simp [joinCross]
                      | exc m => simp at h
                      | exit c => simp at h

/-- Anatomy of a produced mismatch entry: the fetch succeeded, the owner is
truthy and differs from the inspected id, the name read for the warning
succeeded, and the entry packages the credential with the owner. -/
theorem credStep_entry (net : Net) (org cred entry : Json)
    (h : (credStep net org cred).1 = some entry) :
    ∃ idJ detail ow orgId nameJ,
      pyIndex cred "id" = .ok idJ
      ∧ net ("credentials/" ++ idJ.pyStr ++ "/") = .ok detail
      ∧ pyGetD detail "organization" .null = .ok ow
      ∧ ow.truthy = true
      ∧ pyIndex org "id" = .ok orgId
      ∧ Json.pyEq ow orgId = false
      ∧ pyIndex cred "name" = .ok nameJ
      ∧ entry = .obj [("credential", cred), ("organization_id", ow)] := by
  cases hid : pyIndex cred "id" with
  | error m => simp [credStep, hid] at h
  | ok idJ =>
      cases hj : net ("credentials/" ++ idJ.pyStr ++ "/") with
      | error m => simp [credStep, hid, AAPClient.get, hj] at h
      | ok detail =>
          cases hgo : pyGetD detail "organization" .null with
          | error m => simp [credStep, hid, AAPClient.get, hj, hgo] at h
          | ok ow =>
              cases ht : ow.truthy with
              | false => simp [credStep, hid, AAPClient.get, hj, hgo, ht] at h
              | true =>
                  cases hoi : pyIndex org "id" with
                  | error m =>
                      simp [credStep, hid, AAPClient.get, hj, hgo, ht, hoi] at h
                  | ok orgId =>
                      cases he : Json.pyEq ow orgId with
                      | true =>
                          simp [credStep, hid, AAPClient.get, hj, hgo, ht, hoi, he] at h
                      | false =>
                          cases hnm : pyIndex cred "name" with
                          | error m =>
                              simp [credStep, hid, AAPClient.get, hj, hgo, ht,
                                    hoi, he, hnm] at h
                          | ok nameJ =>
                              refine ⟨idJ, detail, ow, orgId, nameJ, rfl, hj, hgo,
                                      ht, rfl, he, rfl, ?_⟩
                              simp [credStep, hid, AAPClient.get, hj, hgo, ht,
                                    hoi, he, hnm] at h
                              exact h.symm

/-- A credential whose owner is truthy and differs produces exactly its
mismatch entry and warning. -/
theorem credStep_flagged (net : Net) (org cred idJ detail ow orgId nameJ : Json)
    (h1 : pyIndex cred "id" = .ok idJ)
    (h2 : net ("credentials/" ++ idJ.pyStr ++ "/") = .ok detail)
    (h3 : pyGetD detail "organization" .null = .ok ow)
    (h4 : ow.truthy = true)
    (h5 : pyIndex org "id" = .ok orgId)
    (h6 : Json.pyEq ow orgId = false)
    (h7 : pyIndex cred "name" = .ok nameJ) :
    credStep net org cred
      = (some (.obj [("credential", cred), ("organization_id", ow)]),
         [.req ("credentials/" ++ idJ.pyStr ++ "/"),
          .warn nameJ.pyStr ow.pyStr], none) := by
  simp [credStep, h1, AAPClient.get, h2, h3, h4, h5, h6, h7]

/-- A credential whose owner equals the inspected id produces nothing. -/
theorem credStep_equal (net : Net) (org cred idJ detail ow orgId : Json)
    (h1 : pyIndex cred "id" = .ok idJ)
    (h2 : net ("credentials/" ++ idJ.pyStr ++ "/") = .ok detail)
    (h3 : pyGetD detail "organization" .null = .ok ow)
    (h4 : ow.truthy = true)
    (h5 : pyIndex org "id" = .ok orgId)
    (h6 : Json.pyEq ow orgId = true) :
    credStep net org cred
      = (none, [.req ("credentials/" ++ idJ.pyStr ++ "/")], none) := by
  simp [credStep, h1, AAPClient.get, h2, h3, h4, h5, h6]

/-- C9: a previewed credential whose fetched detail record has a missing,
null, or zero (falsy) organization-owner value is never added to
cross_org_credentials and its iteration emits no warning, even though such
an owner is not equal to the inspected organization's id: the mismatch test
requires a truthy owner. -/
theorem falsy_owner_never_flagged (net : Net) (org cred idJ detail ow : Json)
    (h1 : pyIndex cred "id" = .ok idJ)
    (h2 : net ("credentials/" ++ idJ.pyStr ++ "/") = .ok detail)
    (h3 : pyGetD detail "organization" .null = .ok ow)
    (h4 : ow.truthy = false) :
    credStep net org cred = (none, [.req ("credentials/" ++ idJ.pyStr ++ "/")], none)
    ∧ ∀ creds deps deps2 evs,
        lookupField deps "cross_org_credentials" = none →
        crossOrgLoop net org creds deps = (.ok deps2, evs) →
        ∀ xs, lookupField deps2 "cross_org_credentials" = some (.arr xs) →
          ∀ e ∈ xs, pyIndex e "credential" ≠ .ok cred := by
  have hstep : credStep net org cred
      = (none, [.req ("credentials/" ++ idJ.pyStr ++ "/")], none) := by
    simp [credStep, h1, AAPClient.get, h2, h3, h4]
  refine ⟨hstep, ?_⟩
  intro creds deps deps2 evs h0 hrun xs hxs e he hcontra
  have hchar := (crossOrgLoop_char net org creds deps deps2 evs hrun).2
  rw [h0, hxs] at hchar
  have hxs2 : xs = credEntries net org creds := by
    cases hce : credEntries net org creds with
    | nil => rw [hce] at hchar; simp [joinCross] at hchar
    | cons m ms =>
        rw [hce] at hchar
        simp only [joinCross, Option.some.injEq, Json.arr.injEq] at hchar
        exact hchar
  rw [hxs2] at he
  obtain ⟨c, hc, hce⟩ := List.mem_filterMap.mp he
  obtain ⟨idJ2, detail2, ow2, orgId2, nameJ2, g1, g2, g3, g4, g5, g6, g7, g8⟩ :=
    credStep_entry net org c e hce
  have hc2 : c = cred := by
    rw [g8] at hcontra
    simpa [pyIndex, lookupField] using hcontra
  rw [hc2] at hce
  rw [hstep] at hce
  simp at hce

/-- C1 (amended): over the credentials listed in the preview, a credential
whose fetched detail record has a truthy organization owner that differs
from the inspected organization's id (its preview entry always carries the
name the warning prints) is recorded under cross_org_credentials together
with the mismatched owner id; a credential whose owner equals the inspected
id never appears there; and the key exists exactly when at least one
mismatch entry was produced. -/
theorem cross_org_credentials_spec (net : Net) (org : Json) (creds : List Json)
    (deps deps2 : List (String × Json)) (evs : List Ev)
    (h0 : lookupField deps "cross_org_credentials" = none)
    (hrun : crossOrgLoop net org creds deps = (.ok deps2, evs)) :
    (∀ cred ∈ creds, ∀ idJ detail ow orgId nameJ : Json,
        pyIndex cred "id" = .ok idJ →
        net ("credentials/" ++ idJ.pyStr ++ "/") = .ok detail →
        pyGetD detail "organization" .null = .ok ow →
        ow.truthy = true →
        pyIndex org "id" = .ok orgId →
        Json.pyEq ow orgId = false →
        pyIndex cred "name" = .ok nameJ →
        ∃ xs, lookupField deps2 "cross_org_credentials" = some (.arr xs)
          ∧ Json.obj [("credential", cred), ("organization_id", ow)] ∈ xs)
    ∧ (∀ cred ∈ creds, ∀ idJ detail ow orgId : Json,
        pyIndex cred "id" = .ok idJ →
        net ("credentials/" ++ idJ.pyStr ++ "/") = .ok detail →
        pyGetD detail "organization" .null = .ok ow →
        ow.truthy = true →
        pyIndex org "id" = .ok orgId →
        Json.pyEq ow orgId = true →
        ∀ xs, lookupField deps2 "cross_org_credentials" = some (.arr xs) →
          ∀ e ∈ xs, pyIndex e "credential" ≠ .ok cred)
    ∧ (lookupField deps2 "cross_org_credentials" = none
        ↔ credEntries net org creds = []) := by
  have hchar := (crossOrgLoop_char net org creds deps deps2 evs hrun).2
  rw [h0] at hchar
  refine ⟨?_, ?_, ?_⟩
  · intro cred hcred idJ detail ow orgId nameJ g1 g2 g3 g4 g5 g6 g7
    have hsome : (credStep net org cred).1
        = some (.obj [("credential", cred), ("organization_id", ow)]) := by
      rw [credStep_flagged net org cred idJ detail ow orgId nameJ g1 g2 g3 g4 g5 g6 g7]
    have hmem : Json.obj [("credential", cred), ("organization_id", ow)]
        ∈ credEntries net org creds :=
      List.mem_filterMap.mpr ⟨cred, hcred, hsome⟩
    cases hce : credEntries net org creds with
    | nil => rw [hce] at hmem; exact absurd hmem (List.not_mem_nil _)
    | cons m ms =>
        refine ⟨m :: ms, ?_, by rw [← hce]; exact hmem⟩
        rw [hchar, hce]
        simp [joinCross]
  · intro cred hcred idJ detail ow orgId g1 g2 g3 g4 g5 g6 xs hxs e he hcontra
    rw [hxs] at hchar
    have hxs2 : xs = credEntries net org creds := by
      cases hce : credEntries net org creds with
      | nil => rw [hce] at hchar; simp [joinCross] at hchar
      | cons m ms =>
          rw [hce] at hchar
          simp only [joinCross, Option.some.injEq, Json.arr.injEq] at hchar
          exact hchar
    rw [hxs2] at he
    obtain ⟨c, hc, hce⟩ := List.mem_filterMap.mp he
    obtain ⟨idJ2, detail2, ow2, orgId2, nameJ2, k1, k2, k3, k4, k5, k6, k7, k8⟩ :=
      credStep_entry net org c e hce
    have hc2 : c = cred := by
      rw [k8] at hcontra
      simpa [pyIndex, lookupField] using hcontra
    rw [hc2] at hce
    rw [credStep_equal net org cred idJ detail ow orgId g1 g2 g3 g4 g5 g6] at hce
    simp at hce
  · rw [hchar]
    cases hce : credEntries net org creds with
    | nil => simp [joinCross]
    | cons m ms => simp [joinCross]

/-- A minimal inspected organization with id 5. -/
def org5 : Json := .obj [("id", .num 5)]

/-- A previewed credential entry with id 7 and name c7. -/
def cred7 : Json := .obj [("id", .num 7), ("name", .str "c7")]

/-- The remote on which every credential detail has a null owner. -/
def netNullOwner : Net := fun _ => .ok (.obj [("organization", .null)])

/-- A dependency map holding only the credentials preview. -/
def depsCreds : List (String × Json) := [("credentials", .arr [cred7])]

/-- C1 counterexample: credential 7's detail owner is null, which differs
from the inspected organization's id 5, yet after the cross-organization
pass the dependency map has no cross_org_credentials key at all. -/
theorem cross_org_null_owner_counterexample :
    Json.pyEq Json.null (Json.num 5) = false
    ∧ pyIndex org5 "id" = .ok (.num 5)
    ∧ pyGetD (.obj [("organization", .null)]) "organization" .null = .ok .null
    ∧ crossOrgLoop netNullOwner org5 [cred7] depsCreds
        = (.ok depsCreds, [Ev.req "credentials/7/"])
    ∧ lookupField depsCreds "cross_org_credentials" = none :=
  ⟨rfl, rfl, rfl, rfl, rfl⟩

/-- Witness for C9 at the same null-owner input. -/
theorem falsy_owner_never_flagged_witness :
    credStep netNullOwner org5 cred7 = (none, [Ev.req "credentials/7/"], none) :=
  (falsy_owner_never_flagged netNullOwner org5 cred7 (.num 7)
    (.obj [("organization", .null)]) .null rfl rfl rfl rfl).1

/-- The remote on which every credential detail is owned by organization 9. -/
def netOwner9 : Net := fun _ => .ok (.obj [("organization", .num 9)])

/-- A previewed credential entry with id 42 and name c42. -/
def cred42 : Json := .obj [("id", .num 42), ("name", .str "c42")]

theorem cross_org_credentials_spec_witness :
    ∃ xs, lookupField [("cross_org_credentials",
        Json.arr [.obj [("credential", cred42), ("organization_id", .num 9)]])]
        "cross_org_credentials" = some (.arr xs)
      ∧ Json.obj [("credential", cred42), ("organization_id", .num 9)] ∈ xs :=
  (cross_org_credentials_spec netOwner9 org5 [cred42] []
      [("cross_org_credentials",
        Json.arr [.obj [("credential", cred42), ("organization_id", .num 9)]])]
      [Ev.req "credentials/42/", Ev.warn "c42" "9"] rfl rfl).1
    cred42 (List.mem_cons_self _ _) (.num 42) (.obj [("organization", .num 9)])
    (.num 9) (.num 5) (.str "c42") rfl rfl rfl rfl rfl rfl rfl

/-- The number of catalogued resource types present in a related-links map. -/
def countPresent (R : List (String × Json)) : Nat :=
  resource_types.countP (fun p => hasField R p.1)

/-- The per-type traversal grows the dependency map by at most one key per
present resource type. -/
theorem depsLoop_length (net : Net) (R : List (String × Json)) :
    ∀ (types : List (String × String)) (deps deps2 : List (String × Json))
      (evs : List Ev), depsLoop net (.obj R) types deps = (.ok deps2, evs) →
      deps2.length ≤ deps.length + types.countP (fun p => hasField R p.1) := by
  intro types
  induction types with
  | nil =>
      intro deps deps2 evs h
      simp only [depsLoop, Prod.mk.injEq, PyR.ok.injEq] at h
      rw [← h.1]
      simp
  | cons t rest ih =>
      intro deps deps2 evs h
      obtain ⟨field, label⟩ := t
      simp only [depsLoop, pyContains] at h
      cases hc : hasField R field with
      | false =>
          rw [hc] at h
          have := ih deps deps2 evs h
          simp only [List.countP_cons, hc]
          simpa using this
      | true =>
          rw [hc] at h
          cases hpi : pyIndex (.obj R) field with
          | error m =>
              simp only [hpi] at h
              have hle := ih deps deps2 evs h
              have hcnt : List.countP (fun p => hasField R p.1) ((field, label) :: rest)
                  = List.countP (fun p => hasField R p.1) rest + 1 := by
                simp [List.countP_cons, hc]
              rw [hcnt]
              omega
          | ok url =>
              simp only [hpi] at h
              rcases hpt : processType net deps field url with ⟨deps1, evs1, o⟩
              simp only [hpt] at h
              cases o with
              | some c => simp at h
              | none =>
                  rcases hr : depsLoop net (.obj R) rest deps1 with ⟨r1, evs2⟩
                  simp only [hr] at h
                  cases r1 with
                  | ok d =>
                      simp only [Prod.mk.injEq, PyR.ok.injEq] at h
                      obtain ⟨hd, _⟩ := h
                      subst hd
                      have h1 := ih deps1 d evs2 hr
                      have h2 := processType_length net deps field url
                      rw [hpt] at h2
                      have hcnt : List.countP (fun p => hasField R p.1) ((field, label) :: rest)
                          = List.countP (fun p => hasField R p.1) rest + 1 := by
                        simp [List.countP_cons, hc]
                      rw [hcnt]
                      simp only at h1 h2
                      omega
                  | exc m => simp at h
                  | exit c => simp at h

/-- Keys the per-type traversal did not start with come from the catalogue. -/
theorem depsLoop_keys (net : Net) (rf : Json) :
    ∀ (types : List (String × String)) (deps deps2 : List (String × Json))
      (evs : List Ev), depsLoop net rf types deps = (.ok deps2, evs) →
      ∀ k, lookupField deps2 k = lookupField deps k
        ∨ ∃ label, (k, label) ∈ types := by
  intro types
  induction types with
  | nil =>
      intro deps deps2 evs h k
      simp only [depsLoop, Prod.mk.injEq, PyR.ok.injEq] at h
      rw [← h.1]
      exact Or.inl rfl
  | cons t rest ih =>
      intro deps deps2 evs h k
      obtain ⟨field, label⟩ := t
      simp only [depsLoop] at h
      cases hpc : pyContains field rf with
      | error m => simp [hpc] at h
      | ok b =>
          cases b with
          | false =>
              simp only [hpc] at h
              rcases ih deps deps2 evs h k with h1 | ⟨l2, h2⟩
              · exact Or.inl h1
              · exact Or.inr ⟨l2, List.mem_cons_of_mem _ h2⟩
          | true =>
              simp only [hpc] at h
              by_cases hk : k = field
              · subst hk
                exact Or.inr ⟨label, List.mem_cons_self _ _⟩
              · cases hpi : pyIndex rf field with
                | error m =>
                    simp only [hpi] at h
                    rcases ih deps deps2 evs h k with h1 | ⟨l2, h2⟩
                    · exact Or.inl h1
                    · exact Or.inr ⟨l2, List.mem_cons_of_mem _ h2⟩
                | ok url =>
                    simp only [hpi] at h
                    rcases hpt : processType net deps field url with ⟨deps1, evs1, o⟩
                    simp only [hpt] at h
                    cases o with
                    | some c => simp at h
                    | none =>
                        rcases hr : depsLoop net rf rest deps1 with ⟨r1, evs2⟩
                        simp only [hr] at h
                        cases r1 with
                        | ok d =>
                            simp only [Prod.mk.injEq, PyR.ok.injEq] at h
                            obtain ⟨hd, _⟩ := h
                            subst hd
                            rcases ih deps1 d evs2 hr k with h1 | ⟨l2, h2⟩
                            · left
                              rw [h1]
                              have := processType_other net deps field url k hk
                              rw [hpt] at this
                              exact this
                            · exact Or.inr ⟨l2, List.mem_cons_of_mem _ h2⟩
                        | exc m => simp at h
                        | exit c => simp at h

/-- A key absent from the related-links map is never written by the
per-type traversal. -/
theorem depsLoop_absent_key (net : Net) (R : List (String × Json)) :
    ∀ (types : List (String × String)) (deps deps2 : List (String × Json))
      (evs : List Ev), depsLoop net (.obj R) types deps = (.ok deps2, evs) →
      ∀ k, hasField R k = false → lookupField deps2 k = lookupField deps k := by
  intro types
  induction types with
  | nil =>
      intro deps deps2 evs h k _
      simp only [depsLoop, Prod.mk.injEq, PyR.ok.injEq] at h
      rw [← h.1]
  | cons t rest ih =>
      intro deps deps2 evs h k hk
      obtain ⟨field, label⟩ := t
      simp only [depsLoop, pyContains] at h
      cases hc : hasField R field with
      | false =>
          rw [hc] at h
          exact ih deps deps2 evs h k hk
      | true =>
          rw [hc] at h
          have hkf : k ≠ field := by
            intro heq
            rw [heq, hc] at hk
            cases hk
          cases hpi : pyIndex (.obj R) field with
          | error m =>
              simp only [hpi] at h
              exact ih deps deps2 evs h k hk
          | ok url =>
              simp only [hpi] at h
              rcases hpt : processType net deps field url with ⟨deps1, evs1, o⟩
              simp only [hpt] at h
              cases o with
              | some c => simp at h
              | none =>
                  rcases hr : depsLoop net (.obj R) rest deps1 with ⟨r1, evs2⟩
                  simp only [hr] at h
                  cases r1 with
                  | ok d =>
                      simp only [Prod.mk.injEq, PyR.ok.injEq] at h
                      obtain ⟨hd, _⟩ := h
                      subst hd
                      rw [ih deps1 d evs2 hr k hk]
                      have := processType_other net deps field url k hkf
                      rw [hpt] at this
                      exact this
                  | exc m => simp at h
                  | exit c => simp at h

theorem cross_key_not_catalogued (label : String) :
    ("cross_org_credentials", label) ∉ resource_types := by
  intro h
  simp [resource_types, Prod.ext_iff] at h

/-- Length of the current cross_org_credentials bucket (0 when absent or not
a list). -/
def crossLen (deps : List (String × Json)) : Nat :=
  match lookupField deps "cross_org_credentials" with
  | some (.arr xs) => xs.length
  | _ => 0

theorem dictAppend_shape (deps : List (String × Json)) (key : String)
    (entry : Json) (d : List (String × Json))
    (h : dictAppend deps key entry = .ok d) :
    (lookupField deps key = none ∧ d = deps ++ [(key, .arr [entry])])
    ∨ ∃ xs, lookupField deps key = some (.arr xs)
        ∧ d = dictSet deps key (.arr (xs ++ [entry])) := by
  unfold dictAppend at h
  cases hl : lookupField deps key with
  | none =>
      rw [hl] at h
      simp only [Except.ok.injEq] at h
      exact Or.inl ⟨rfl, h.symm⟩
  | some v =>
      rw [hl] at h
      cases v with
      | arr xs =>
          simp only [Except.ok.injEq] at h
          exact Or.inr ⟨xs, rfl, h.symm⟩
      | null => simp at h
      | bool b => simp at h
      | num n => simp at h
      | str s => simp at h
      | obj fs => simp at h


/-- One when the cross_org_credentials key is still absent, zero once it
exists: the remaining growth the cross-organization pass can cause. -/
def crossSlack (deps : List (String × Json)) : Nat :=
  match lookupField deps "cross_org_credentials" with
  | some _ => 0
  | none => 1

/-- The cross-organization pass adds at most one key to the dependency map
(none when the bucket already exists). -/
theorem crossOrgLoop_length (net : Net) (org : Json) :
    ∀ (creds : List Json) (deps deps2 : List (String × Json)) (evs : List Ev),
      crossOrgLoop net org creds deps = (.ok deps2, evs) →
      deps2.length ≤ deps.length + crossSlack deps := by
  intro creds
  induction creds with
  | nil =>
      intro deps deps2 evs h
      simp only [crossOrgLoop, Prod.mk.injEq, PyR.ok.injEq] at h
      rw [← h.1]
      omega
  | cons cred rest ih =>
      intro deps deps2 evs h
      rcases hcs : credStep net org cred with ⟨entry?, evs1, o⟩
      simp only [crossOrgLoop, hcs] at h
      cases o with
      | some c => simp at h
      | none =>
          cases entry? with
          | none =>
              rcases hr : crossOrgLoop net org rest deps with ⟨r1, evs2⟩
              simp only [hr] at h
              cases r1 with
              | ok d =>
                  simp only [Prod.mk.injEq, PyR.ok.injEq] at h
                  obtain ⟨hd, _⟩ := h
                  subst hd
                  exact ih deps d evs2 hr
              | exc m => simp at h
              | exit c => simp at h
          | some entry =>
              cases hda : dictAppend deps "cross_org_credentials" entry with
              | error m =>
                  simp only [hda] at h
                  rcases hr : crossOrgLoop net org rest deps with ⟨r1, evs2⟩
                  simp only [hr] at h
                  cases r1 with
                  | ok d =>
                      simp only [Prod.mk.injEq, PyR.ok.injEq] at h
                      obtain ⟨hd, _⟩ := h
                      subst hd
                      exact ih deps d evs2 hr
                  | exc m => simp at h
                  | exit c => simp at h
              | ok d1 =>
                  simp only [hda] at h
                  rcases hr : crossOrgLoop net org rest d1 with ⟨r1, evs2⟩
                  simp only [hr] at h
                  cases r1 with
                  | ok d =>
                      simp only [Prod.mk.injEq, PyR.ok.injEq] at h
                      obtain ⟨hd, _⟩ := h
                      subst hd
                      have hih := ih d1 d evs2 hr
                      rcases dictAppend_shape deps _ entry d1 hda with
                        ⟨hnone, hd1⟩ | ⟨xs, hsome, hd1⟩
                      · have hlen : d1.length = deps.length + 1 := by
                          rw [hd1]
                          simp
                        have hs1 : crossSlack d1 = 0 := by
                          unfold crossSlack
                          rw [hd1, lookupField_append_last _ _ _ hnone]
                        have hs0 : crossSlack deps = 1 := by
                          unfold crossSlack
                          rw [hnone]
                        omega
                      · have hlen : d1.length = deps.length := by
                          rw [hd1, dictSet_length]
                          rw [if_pos (by simp [hasField, hsome])]
                        have hs1 : crossSlack d1 = 0 := by
                          unfold crossSlack
                          rw [hd1, lookupField_dictSet_self]
                        have hs0 : crossSlack deps = 0 := by
                          unfold crossSlack
                          rw [hsome]
                        omega
                  | exc m => simp at h
                  | exit c => simp at h
/-- Every entry after the cross-organization pass was already present or is
the bucket, whose length is bounded by its starting length plus the number
of credentials processed. -/
theorem crossOrgLoop_mem (net : Net) (org : Json) :
    ∀ (creds : List Json) (deps deps2 : List (String × Json)) (evs : List Ev),
      crossOrgLoop net org creds deps = (.ok deps2, evs) →
      ∀ kv ∈ deps2, kv ∈ deps
        ∨ ∃ xs, kv.2 = Json.arr xs ∧ xs.length ≤ crossLen deps + creds.length := by
  intro creds
  induction creds with
  | nil =>
      intro deps deps2 evs h kv hkv
      simp only [crossOrgLoop, Prod.mk.injEq, PyR.ok.injEq] at h
      rw [← h.1] at hkv
      exact Or.inl hkv
  | cons cred rest ih =>
      intro deps deps2 evs h kv hkv
      rcases hcs : credStep net org cred with ⟨entry?, evs1, o⟩
      simp only [crossOrgLoop, hcs] at h
      cases o with
      | some c => simp at h
      | none =>
          cases entry? with
          | none =>
              rcases hr : crossOrgLoop net org rest deps with ⟨r1, evs2⟩
              simp only [hr] at h
              cases r1 with
              | ok d =>
                  simp only [Prod.mk.injEq, PyR.ok.injEq] at h
                  obtain ⟨hd, _⟩ := h
                  subst hd
                  rcases ih deps d evs2 hr kv hkv with h1 | ⟨xs, hx, hb⟩
                  · exact Or.inl h1
                  · refine Or.inr ⟨xs, hx, ?_⟩
                    simp only [List.length_cons]
                    omega
              | exc m => simp at h
              | exit c => simp at h
          | some entry =>
              cases hda : dictAppend deps "cross_org_credentials" entry with
              | error m =>
                  simp only [hda] at h
                  rcases hr : crossOrgLoop net org rest deps with ⟨r1, evs2⟩
                  simp only [hr] at h
                  cases r1 with
                  | ok d =>
                      simp only [Prod.mk.injEq, PyR.ok.injEq] at h
                      obtain ⟨hd, _⟩ := h
                      subst hd
                      rcases ih deps d evs2 hr kv hkv with h1 | ⟨xs, hx, hb⟩
                      · exact Or.inl h1
                      · refine Or.inr ⟨xs, hx, ?_⟩
                        simp only [List.length_cons]
                        omega
                  | exc m => simp at h
                  | exit c => simp at h
              | ok d1 =>
                  simp only [hda] at h
                  rcases hr : crossOrgLoop net org rest d1 with ⟨r1, evs2⟩
                  simp only [hr] at h
                  cases r1 with
                  | ok d =>
                      simp only [Prod.mk.injEq, PyR.ok.injEq] at h
                      obtain ⟨hd, _⟩ := h
                      subst hd
                      rcases dictAppend_shape deps _ entry d1 hda with
                        ⟨hnone, hd1⟩ | ⟨xs0, hsome, hd1⟩
                      · have hcl0 : crossLen deps = 0 := by
                          unfold crossLen
                          rw [hnone]
                        have hcl1 : crossLen d1 = 1 := by
                          unfold crossLen
                          rw [hd1, lookupField_append_last _ _ _ hnone]
                          rfl
                        rcases ih d1 d evs2 hr kv hkv with h1 | ⟨xs, hx, hb⟩
                        · rw [hd1] at h1
                          rcases List.mem_append.mp h1 with h2 | h2
                          · exact Or.inl h2
                          · simp only [List.mem_singleton] at h2
                            refine Or.inr ⟨[entry], by rw [h2], ?_⟩
                            simp only [List.length_cons, List.length_nil]
                            omega
                        · refine Or.inr ⟨xs, hx, ?_⟩
                          rw [hcl1] at hb
                          rw [hcl0]
                          simp only [List.length_cons, List.length_nil] at hb ⊢
                          omega
                      · have hcl0 : crossLen deps = xs0.length := by
                          unfold crossLen
                          rw [hsome]
                        have hcl1 : crossLen d1 = xs0.length + 1 := by
                          unfold crossLen
                          rw [hd1, lookupField_dictSet_self]
                          simp
                        rcases ih d1 d evs2 hr kv hkv with h1 | ⟨xs, hx, hb⟩
                        · rw [hd1] at h1
                          rcases mem_dictSet _ _ _ _ h1 with h2 | h2
                          · exact Or.inl h2
                          · refine Or.inr ⟨xs0 ++ [entry], h2, ?_⟩
                            rw [hcl0]
                            simp only [List.length_append, List.length_cons,
                                       List.length_nil]
                            omega
                        · refine Or.inr ⟨xs, hx, ?_⟩
                          rw [hcl1] at hb
                          rw [hcl0]
                          simp only [List.length_cons, List.length_nil] at hb ⊢
                          omega
                  | exc m => simp at h
                  | exit c => simp at h

/-- C4 (amended): for an organization whose related-links map carries N of
the twelve catalogued resource types, a completed traversal returns a
dependency map with at most N + 1 keys (the possible extra key being the
cross_org_credentials bucket) and every key holds a list of at most five
entries, regardless of the counts the remote pages report. -/
theorem find_dependencies_bounds (net : Net) (org : Json) (R : List (String × Json))
    (hrel : pyGetD org "related" (.obj []) = .ok (.obj R))
    (deps : List (String × Json)) (evs : List Ev)
    (hrun : OrganizationInspector.find_dependencies net org = (.ok deps, evs)) :
    deps.length ≤ countPresent R + 1
    ∧ ∀ kv ∈ deps, ∃ xs, kv.2 = Json.arr xs ∧ xs.length ≤ 5 := by
  cases org with
  | obj ofs =>
      have hR : (lookupField ofs "related").getD (.obj []) = .obj R := by
        simpa [pyGetD] using hrel
      simp only [OrganizationInspector.find_dependencies, pyGetD, hR] at hrun
      rcases hloop : depsLoop net (.obj R) resource_types [] with ⟨r1, evs1⟩
      simp only [hloop] at hrun
      cases r1 with
      | exc m => simp at hrun
      | exit c => simp at hrun
      | ok deps1 =>
          have hlen1 : deps1.length ≤ countPresent R := by
            have := depsLoop_length net R resource_types [] deps1 evs1 hloop
            simpa [countPresent] using this
          have hmem1 : ∀ kv ∈ deps1, ∃ xs, kv.2 = Json.arr xs ∧ xs.length ≤ 5 := by
            intro kv hkv
            rcases depsLoop_mem net (.obj R) resource_types [] deps1 evs1 hloop kv hkv
              with h1 | h2
            · simp at h1
            · exact h2
          have hcrossnone : lookupField deps1 "cross_org_credentials" = none := by
            rcases depsLoop_keys net (.obj R) resource_types [] deps1 evs1 hloop
              "cross_org_credentials" with h1 | ⟨l2, h2⟩
            · rw [h1]; rfl
            · exact absurd h2 (cross_key_not_catalogued l2)
          cases hcr : lookupField deps1 "credentials" with
          | none =>
              simp only [hcr] at hrun
              simp only [Prod.mk.injEq, PyR.ok.injEq] at hrun
              obtain ⟨hd, _⟩ := hrun
              subst hd
              exact ⟨by omega, hmem1⟩
          | some credsJ =>
              simp only [hcr] at hrun
              obtain ⟨xs0, hxs0, hlen0⟩ :=
                (hmem1 ("credentials", credsJ) (lookupField_mem deps1 _ _ hcr)).imp
                  (fun xs hx => hx)
              simp only at hxs0
              subst hxs0
              simp only [pyIterate] at hrun
              rcases hcross : crossOrgLoop net (.obj ofs) xs0 deps1 with ⟨r2, evs2⟩
              simp only [hcross] at hrun
              cases r2 with
              | exc m => simp at hrun
              | exit c => simp at hrun
              | ok d =>
                  simp only [Prod.mk.injEq, PyR.ok.injEq] at hrun
                  obtain ⟨hd, _⟩ := hrun
                  subst hd
                  constructor
                  · have hcl := crossOrgLoop_length net (.obj ofs) xs0 deps1 d evs2 hcross
                    have hsl : crossSlack deps1 = 1 := by
                      unfold crossSlack
                      rw [hcrossnone]
                    omega
                  · intro kv hkv
                    rcases crossOrgLoop_mem net (.obj ofs) xs0 deps1 d evs2 hcross kv hkv
                      with h1 | ⟨xs, hx, hb⟩
                    · exact hmem1 kv h1
                    · refine ⟨xs, hx, ?_⟩
                      have hcl0 : crossLen deps1 = 0 := by
                        unfold crossLen
                        rw [hcrossnone]
                      omega
  | null => simp [pyGetD] at hrel
  | bool b => simp [pyGetD] at hrel
  | num n => simp [pyGetD] at hrel
  | str s => simp [pyGetD] at hrel
  | arr xs => simp [pyGetD] at hrel

/-- The remote serving one credentials page with a single credential owned
by organization 9. -/
def netCross : Net := fun e =>
  if e = "creds_url" then .ok (.obj [("count", .num 1), ("results", .arr [cred42])])
  else .ok (.obj [("organization", .num 9)])

/-- An organization with only the credentials type in its related links. -/
def orgCredsOnly : Json :=
  .obj [("id", .num 5), ("related", .obj [("credentials", .str "creds_url")])]

/-- The dependency map the traversal produces for orgCredsOnly. -/
def depsCredsOnly : List (String × Json) :=
  [("credentials", Json.arr [Json.obj [("id", Json.num 42), ("name", Json.str "c42")]]),
   ("cross_org_credentials",
    Json.arr [Json.obj
      [("credential", Json.obj [("id", Json.num 42), ("name", Json.str "c42")]),
       ("organization_id", Json.num 9)]])]

/-- C4 counterexample: with exactly one catalogued type present (N = 1) the
returned dependency map has two keys, because the cross_org_credentials
bucket is an extra key beyond the per-type ones. -/
theorem find_dependencies_key_count_counterexample :
    OrganizationInspector.find_dependencies netCross orgCredsOnly
      = (.ok depsCredsOnly,
         [Ev.req "creds_url", Ev.req "credentials/42/", Ev.warn "c42" "9"])
    ∧ countPresent [("credentials", Json.str "creds_url")] = 1
    ∧ depsCredsOnly.length = 2
    ∧ ¬(2 ≤ 1) := ⟨rfl, rfl, rfl, by decide⟩

theorem find_dependencies_bounds_witness :
    depsCredsOnly.length ≤ countPresent [("credentials", Json.str "creds_url")] + 1
    ∧ ∀ kv ∈ depsCredsOnly, ∃ xs, kv.2 = Json.arr xs ∧ xs.length ≤ 5 :=
  find_dependencies_bounds netCross orgCredsOnly
    [("credentials", Json.str "creds_url")] rfl depsCredsOnly
    [Ev.req "creds_url", Ev.req "credentials/42/", Ev.warn "c42" "9"] rfl

/-- C6: a catalogued resource type absent from the organization's
related-links map is skipped outright: removing it from the catalogue
changes neither the traversal's result nor its events (so no request is
ever issued for it), and no entry under its key appears in the returned
dependency map. -/
theorem absent_type_skipped (net : Net) (org : Json) (R : List (String × Json))
    (field label : String)
    (hmem : (field, label) ∈ resource_types)
    (habs : hasField R field = false)
    (hrel : pyGetD org "related" (.obj []) = .ok (.obj R)) :
    (∀ types deps, depsLoop net (.obj R) types deps
        = depsLoop net (.obj R) (types.filter (fun p => !(p.1 == field))) deps)
    ∧ ∀ deps evs, OrganizationInspector.find_dependencies net org = (.ok deps, evs) →
        lookupField deps field = none := by
  constructor
  · intro types
    induction types with
    | nil => intro deps; rfl
    | cons t rest ih =>
        intro deps
        obtain ⟨f, l⟩ := t
        by_cases hf : f = field
        · subst hf
          have hfil : ((f, l) :: rest).filter (fun p => !(p.1 == f))
              = rest.filter (fun p => !(p.1 == f)) := by
            simp [List.filter_cons]
          rw [hfil]
          simp only [depsLoop, pyContains, habs]
          exact ih deps
        · have hfil : ((f, l) :: rest).filter (fun p => !(p.1 == field))
              = (f, l) :: rest.filter (fun p => !(p.1 == field)) := by
            simp [List.filter_cons, hf]
          rw [hfil]
          simp only [depsLoop]
          cases hpc : pyContains f (.obj R) with
          | error m => rfl
          | ok b =>
              cases b with
              | false => exact ih deps
              | true =>
                  cases hpi : pyIndex (.obj R) f with
                  | error m => exact ih deps
                  | ok url =>
                      rcases hpt : processType net deps f url with ⟨deps1, evs1, o⟩
                      cases o with
                      | some c => simp only [hpt]
                      | none =>
                          simp only [hpt]
                          rw [ih deps1]
  · intro deps evs hrun
    cases org with
    | obj ofs =>
        have hR : (lookupField ofs "related").getD (.obj []) = .obj R := by
          simpa [pyGetD] using hrel
        have hfc : field ≠ "cross_org_credentials" := by
          intro heq
          rw [heq] at hmem
          exact cross_key_not_catalogued label hmem
        simp only [OrganizationInspector.find_dependencies, pyGetD, hR] at hrun
        rcases hloop : depsLoop net (.obj R) resource_types [] with ⟨r1, evs1⟩
        simp only [hloop] at hrun
        cases r1 with
        | exc m => simp at hrun
        | exit c => simp at hrun
        | ok deps1 =>
            have habs1 : lookupField deps1 field = none := by
              rw [depsLoop_absent_key net R resource_types [] deps1 evs1 hloop
                    field habs]
              rfl
            cases hcr : lookupField deps1 "credentials" with
            | none =>
                simp only [hcr] at hrun
                simp only [Prod.mk.injEq, PyR.ok.injEq] at hrun
                obtain ⟨hd, _⟩ := hrun
                subst hd
                exact habs1
            | some credsJ =>
                simp only [hcr] at hrun
                cases hit : pyIterate credsJ with
                | error m => simp [hit] at hrun
                | ok creds =>
                    simp only [hit] at hrun
                    rcases hcross : crossOrgLoop net (.obj ofs) creds deps1
                      with ⟨r2, evs2⟩
                    simp only [hcross] at hrun
                    cases r2 with
                    | exc m => simp at hrun
                    | exit c => simp at hrun
                    | ok d =>
                        simp only [Prod.mk.injEq, PyR.ok.injEq] at hrun
                        obtain ⟨hd, _⟩ := hrun
                        subst hd
                        rw [(crossOrgLoop_char net (.obj ofs) creds deps1 d evs2
                              hcross).1 field hfc]
                        exact habs1
    | null => simp [pyGetD] at hrel
    | bool b => simp [pyGetD] at hrel
    | num n => simp [pyGetD] at hrel
    | str s => simp [pyGetD] at hrel
    | arr xs => simp [pyGetD] at hrel

theorem absent_type_skipped_witness :
    lookupField depsCredsOnly "teams" = none :=
  (absent_type_skipped netCross orgCredsOnly [("credentials", Json.str "creds_url")]
      "teams" "Teams" (by simp [resource_types]) rfl rfl).2 depsCredsOnly
    [Ev.req "creds_url", Ev.req "credentials/42/", Ev.warn "c42" "9"] rfl

/-! ### The JSON export codec

OrganizationInspector.export_to_json writes the report with json.dump and
the round-trip claim reads it back with json.load. Both are modelled below:
dumps renders a value compactly (json.dump's indent only inserts
inter-token whitespace, which loading ignores) and loads is a
whitespace-tolerant JSON reader over the integer-number grammar the Json
model carries. -/

/-- JSON inter-token whitespace. -/
def wsChar (c : Char) : Bool :=
  c = ' ' || c = '\n' || c = '\t' || c = '\r'

/-- Skip leading whitespace. -/
def dropWs : List Char → List Char
  | c :: cs => if wsChar c then dropWs cs else c :: cs
  | [] => []

/-- ASCII decimal digit test by code point. -/
def isDigitC (c : Char) : Bool :=
  48 ≤ c.toNat && c.toNat ≤ 57

/-- The digit character for a value below ten. -/
def digitChar (k : Nat) : Char := Char.ofNat (48 + k)

/-- Decimal digits of a natural number, most significant first. -/
def natChars (n : Nat) : List Char :=
  if n < 10 then [digitChar n]
  else natChars (n / 10) ++ [digitChar (n % 10)]
termination_by n
decreasing_by omega

/-- Decimal rendering of an integer. -/
def intChars (i : Int) : List Char :=
  (if i < 0 then ['-'] else []) ++ natChars i.natAbs

/-- The longest digit run at the front, and what follows it. -/
def grabDigits : List Char → List Char × List Char
  | [] => ([], [])
  | c :: cs =>
      if isDigitC c then
        let p := grabDigits cs
        (c :: p.1, p.2)
      else ([], c :: cs)

/-- Numeric value of a digit run. -/
def digitsVal (ds : List Char) : Nat :=
  ds.foldl (fun a c => a * 10 + (c.toNat - 48)) 0

/-- Lowercase hexadecimal digit for a value below sixteen. -/
def hexDigit (k : Nat) : Char :=
  if k < 10 then Char.ofNat (48 + k) else Char.ofNat (87 + k)

/-- Value of a hexadecimal digit character. -/
def hexVal? (c : Char) : Option Nat :=
  if 48 ≤ c.toNat && c.toNat ≤ 57 then some (c.toNat - 48)
  else if 97 ≤ c.toNat && c.toNat ≤ 102 then some (c.toNat - 87)
  else if 65 ≤ c.toNat && c.toNat ≤ 70 then some (c.toNat - 55)
  else none

/-- The single-character escapes a JSON reader accepts. -/
def unescChar? : Char → Option Char
  | 'n' => some '\n'
  | 't' => some '\t'
  | 'r' => some '\r'
  | 'b' => some (Char.ofNat 8)
  | 'f' => some (Char.ofNat 12)
  | '"' => some '"'
  | '\\' => some '\\'
  | '/' => some '/'
  | _ => none

/-- Escape one character for a JSON string literal: quote and backslash get
two-character escapes, other control characters a hexadecimal escape,
everything else stands for itself. -/
def escChar (c : Char) : List Char :=
  if c = '"' then ['\\', '"']
  else if c = '\\' then ['\\', '\\']
  else if c.toNat < 32 then
    ['\\', 'u', '0', '0', hexDigit (c.toNat / 16), hexDigit (c.toNat % 16)]
  else [c]

/-- A JSON string literal for the given text. -/
def strLitL (s : String) : List Char :=
  '"' :: (s.toList.flatMap escChar ++ ['"'])

/-- The object braces, kept out of character literals. -/
def obrace : Char := Char.ofNat 123

/-- The closing object brace. -/
def cbrace : Char := Char.ofNat 125

/-- Scan a string body after the opening quote, unescaping as it goes; the
accumulator holds the decoded prefix reversed. -/
def scanStr (acc : List Char) : List Char → Option (List Char × List Char)
  | [] => none
  | c :: r =>
      if c = '"' then some (acc.reverse, r)
      else if c = '\\' then
        match r with
        | [] => none
        | k :: r2 =>
            if k = 'u' then
              match r2 with
              | a :: b :: c2 :: d :: r3 =>
                  match hexVal? a, hexVal? b, hexVal? c2, hexVal? d with
                  | some va, some vb, some vc, some vd =>
                      scanStr (Char.ofNat (((va * 16 + vb) * 16 + vc) * 16 + vd) :: acc) r3
                  | _, _, _, _ => none
              | _ => none
            else
              match unescChar? k with
              | some e => scanStr (e :: acc) r2
              | none => none
      else scanStr (c :: acc) r

mutual
/-- Render a value to characters, compactly. -/
def Json.dumpL : Json → List Char
  | .null => 'n' :: 'u' :: 'l' :: 'l' :: []
  | .bool true => 't' :: 'r' :: 'u' :: 'e' :: []
  | .bool false => 'f' :: 'a' :: 'l' :: 's' :: 'e' :: []
  | .num n => intChars n
  | .str s => strLitL s
  | .arr xs => '[' :: (Json.dumpItems xs ++ [']'])
  | .obj fs => obrace :: (Json.dumpFields fs ++ [cbrace])

/-- Comma-joined renderings of array elements. -/
def Json.dumpItems : List Json → List Char
  | [] => []
  | [x] => Json.dumpL x
  | x :: xs => Json.dumpL x ++ ',' :: Json.dumpItems xs

/-- Comma-joined renderings of object members. -/
def Json.dumpFields : List (String × Json) → List Char
  | [] => []
  | [(k, v)] => strLitL k ++ ':' :: Json.dumpL v
  | (k, v) :: fs => strLitL k ++ ':' :: Json.dumpL v ++ ',' :: Json.dumpFields fs
end

/-- json.dump of a report value, as a string. -/
def Json.dumps (j : Json) : String := String.mk (Json.dumpL j)

mutual
/-- Read one JSON value; the fuel dominates the input length so the
recursion is structural. -/
def parseV (fuel : Nat) (cs : List Char) : Option (Json × List Char) :=
  match fuel with
  | 0 => none
  | fuel + 1 =>
      match dropWs cs with
      | [] => none
      | c :: r =>
          if c = 'n' then
            match matchFront ['u', 'l', 'l'] r with
            | some r2 => some (.null, r2)
            | none => none
          else if c = 't' then
            match matchFront ['r', 'u', 'e'] r with
            | some r2 => some (.bool true, r2)
            | none => none
          else if c = 'f' then
            match matchFront ['a', 'l', 's', 'e'] r with
            | some r2 => some (.bool false, r2)
            | none => none
          else if c = '"' then
            match scanStr [] r with
            | some (body, r2) => some (.str (String.mk body), r2)
            | none => none
          else if c = '-' then
            match grabDigits r with
            | ([], _) => none
            | (ds, r2) => some (.num (-(digitsVal ds : Int)), r2)
          else if c = '[' then
            match dropWs r with
            | [] => none
            | d :: r2 =>
                if d = ']' then some (.arr [], r2)
                else
                  match parseIs fuel (d :: r2) with
                  | some (vs, r3) => some (.arr vs, r3)
                  | none => none
          else if c = obrace then
            match dropWs r with
            | [] => none
            | d :: r2 =>
                if d = cbrace then some (.obj [], r2)
                else
                  match parseFs fuel (d :: r2) with
                  | some (ms, r3) => some (.obj ms, r3)
                  | none => none
          else if isDigitC c then
            match grabDigits (c :: r) with
            | ([], _) => none
            | (ds, r2) => some (.num (digitsVal ds : Int), r2)
          else none

/-- Read one-or-more comma-separated array elements up to the closing
bracket. -/
def parseIs (fuel : Nat) (cs : List Char) : Option (List Json × List Char) :=
  match fuel with
  | 0 => none
  | fuel + 1 =>
      match parseV fuel cs with
      | none => none
      | some (v, r) =>
          match dropWs r with
          | [] => none
          | c :: r2 =>
              if c = ',' then
                match parseIs fuel (dropWs r2) with
                | some (vs, r3) => some (v :: vs, r3)
                | none => none
              else if c = ']' then some ([v], r2)
              else none

/-- Read one-or-more comma-separated object members up to the closing
brace. -/
def parseFs (fuel : Nat) (cs : List Char) :
    Option (List (String × Json) × List Char) :=
  match fuel with
  | 0 => none
  | fuel + 1 =>
      match dropWs cs with
      | [] => none
      | c :: r =>
          if c = '"' then
            match scanStr [] r with
            | none => none
            | some (key, r1) =>
                match dropWs r1 with
                | [] => none
                | d :: r2 =>
                    if d = ':' then
                      match parseV fuel (dropWs r2) with
                      | none => none
                      | some (v, r3) =>
                          match dropWs r3 with
                          | [] => none
                          | e :: r4 =>
                              if e = ',' then
                                match parseFs fuel (dropWs r4) with
                                | some (ms, r5) => some ((String.mk key, v) :: ms, r5)
                                | none => none
                              else if e = cbrace then
                                some ([(String.mk key, v)], r4)
                              else none
                    else none
          else none
end

/-- json.load of an exported string: one value and nothing but whitespace
after it. -/
def Json.loads (s : String) : Option Json :=
  match parseV (s.toList.length + 1) s.toList with
  | some (j, r) => if (dropWs r).isEmpty then some j else none
  | none => none

/-- OrganizationInspector.export_to_json: the report serialized by
json.dump (the file write itself is a plain filesystem effect). -/
def OrganizationInspector.export_to_json (data : Json) : String :=
  Json.dumps data

/-! ### Round-trip lemmas: lexical layer -/

theorem dropWs_not (c : Char) (t : List Char) (h : wsChar c = false) :
    dropWs (c :: t) = c :: t := by
  simp [dropWs, h]

theorem matchFront_refl (lit : List Char) : ∀ rest, matchFront lit (lit ++ rest) = some rest := by
  induction lit with
  | nil => intro rest; simp [matchFront]
  | cons c cs ih => intro rest; simp [matchFront, ih]

theorem digitChar_val (k : Nat) (h : k < 10) :
    (digitChar k).toNat = 48 + k ∧ isDigitC (digitChar k) = true := by
  interval_cases k <;> exact ⟨by decide, by decide⟩

theorem digitC_not_special {c : Char} (h : isDigitC c = true) :
    c ≠ 'n' ∧ c ≠ 't' ∧ c ≠ 'f' ∧ c ≠ '"' ∧ c ≠ '-' ∧ c ≠ '[' ∧ c ≠ ']'
    ∧ c ≠ ',' ∧ c ≠ obrace ∧ c ≠ cbrace ∧ wsChar c = false := by
  refine ⟨?_, ?_, ?_, ?_, ?_, ?_, ?_, ?_, ?_, ?_, ?_⟩
  all_goals first
    | (intro heq; subst heq; exact absurd h (by decide))
    | (simp only [wsChar, Bool.or_eq_false_iff, decide_eq_false_iff_not]
       refine ⟨⟨⟨?_, ?_⟩, ?_⟩, ?_⟩ <;> (intro heq; subst heq; exact absurd h (by decide)))

theorem natChars_nonempty (n : Nat) : natChars n ≠ [] := by
  rw [natChars]
  split <;> simp

theorem natChars_digits (n : Nat) : ∀ c ∈ natChars n, isDigitC c = true := by
  induction n using Nat.strongRecOn with
  | _ n ih =>
      rw [natChars]
      split
      · rename_i h
        intro c hc
        simp only [List.mem_singleton] at hc
        subst hc
        exact (digitChar_val n h).2
      · rename_i h
        intro c hc
        rcases List.mem_append.mp hc with h1 | h2
        · exact ih (n / 10) (by omega) c h1
        · simp only [List.mem_singleton] at h2
          subst h2
          exact (digitChar_val (n % 10) (by omega)).2

theorem natChars_head (n : Nat) :
    ∃ c t, natChars n = c :: t ∧ isDigitC c = true := by
  cases h : natChars n with
  | nil => exact absurd h (natChars_nonempty n)
  | cons c t =>
      refine ⟨c, t, rfl, natChars_digits n c ?_⟩
      rw [h]
      exact List.mem_cons_self _ _

theorem digitsVal_snoc (xs : List Char) (c : Char) :
    digitsVal (xs ++ [c]) = digitsVal xs * 10 + (c.toNat - 48) := by
  simp [digitsVal, List.foldl_append]

theorem digitsVal_natChars (n : Nat) : digitsVal (natChars n) = n := by
  induction n using Nat.strongRecOn with
  | _ n ih =>
      rw [natChars]
      split
      · rename_i h
        simp only [digitsVal, List.foldl_cons, List.foldl_nil]
        rw [(digitChar_val n h).1]
        omega
      · rename_i h
        rw [digitsVal_snoc, ih (n / 10) (by omega), (digitChar_val (n % 10) (by omega)).1]
        omega

/-- Whether an input cannot extend a digit run. -/
def noDigitHead : List Char → Bool
  | [] => true
  | c :: _ => !isDigitC c

theorem grabDigits_stop (rest : List Char) (h : noDigitHead rest = true) :
    grabDigits rest = ([], rest) := by
  cases rest with
  | nil => rfl
  | cons c t =>
      simp only [noDigitHead, Bool.not_eq_true'] at h
      simp [grabDigits, h]

theorem grabDigits_run (ds : List Char) (rest : List Char)
    (hds : ∀ c ∈ ds, isDigitC c = true) (hrest : grabDigits rest = ([], rest)) :
    grabDigits (ds ++ rest) = (ds, rest) := by
  induction ds with
  | nil => simpa using hrest
  | cons c t ih =>
      have hc : isDigitC c = true := hds c (List.mem_cons_self _ _)
      have ht := ih (fun x hx => hds x (List.mem_cons_of_mem _ hx))
      simp [grabDigits, hc, ht]

theorem hexVal_hexDigit (k : Nat) (h : k < 16) : hexVal? (hexDigit k) = some k := by
  interval_cases k <;> decide

theorem scanStr_esc (c : Char) (acc rest : List Char) :
    scanStr acc (escChar c ++ rest) = scanStr (c :: acc) rest := by
  by_cases hq : c = '"'
  · subst hq
    rw [show escChar '"' = ['\\', '"'] from by decide]
    conv_lhs => rw [scanStr.eq_def]
    simp [unescChar?]
  · by_cases hb : c = '\\'
    · subst hb
      rw [show escChar '\\' = ['\\', '\\'] from by decide]
      conv_lhs => rw [scanStr.eq_def]
      simp [unescChar?]
    · by_cases hc : c.toNat < 32
      · have h16 : c.toNat % 16 < 16 := Nat.mod_lt _ (by omega)
        have h16b : c.toNat / 16 < 16 := by omega
        have hv1 : hexVal? (hexDigit (c.toNat / 16)) = some (c.toNat / 16) :=
          hexVal_hexDigit _ h16b
        have hv2 : hexVal? (hexDigit (c.toNat % 16)) = some (c.toNat % 16) :=
          hexVal_hexDigit _ h16
        have hv0 : hexVal? '0' = some 0 := by decide
        have harith : ((0 * 16 + 0) * 16 + c.toNat / 16) * 16 + c.toNat % 16
            = c.toNat := by omega
        simp only [escChar, if_neg hq, if_neg hb, if_pos hc, List.cons_append,
                   List.nil_append]
        conv_lhs => rw [scanStr.eq_def]
        simp [hv0, hv1, hv2]
        rw [show c.toNat / 16 * 16 + c.toNat % 16 = c.toNat from by omega,
            Char.ofNat_toNat]
      · simp only [escChar, if_neg hq, if_neg hb, if_neg hc, List.cons_append,
                   List.nil_append]
        conv_lhs => rw [scanStr.eq_def]
        simp [if_neg hq, if_neg hb]

theorem scanStr_lit : ∀ (cs acc rest : List Char),
    scanStr acc (cs.flatMap escChar ++ '"' :: rest) = some (acc.reverse ++ cs, rest) := by
  intro cs
  induction cs with
  | nil =>
      intro acc rest
      rw [List.flatMap_nil, List.nil_append, scanStr.eq_def]
      simp
  | cons c t ih =>
      intro acc rest
      rw [List.flatMap_cons, List.append_assoc, scanStr_esc, ih]
      simp

theorem mk_toList (s : String) : String.mk s.toList = s := rfl

theorem parseV_null (fuel : Nat) (rest : List Char) :
    parseV (fuel + 1) (Json.dumpL .null ++ rest) = some (.null, rest) := by
  have harg : Json.dumpL .null ++ rest = 'n' :: (['u', 'l', 'l'] ++ rest) := rfl
  rw [harg]
  simp only [parseV]
  rw [dropWs_not 'n' _ (by decide)]
  have hmf : matchFront ['u', 'l', 'l'] ('u' :: 'l' :: 'l' :: rest) = some rest :=
    matchFront_refl ['u', 'l', 'l'] rest
  simp [hmf]

theorem parseV_true (fuel : Nat) (rest : List Char) :
    parseV (fuel + 1) (Json.dumpL (.bool true) ++ rest) = some (.bool true, rest) := by
  have harg : Json.dumpL (.bool true) ++ rest = 't' :: (['r', 'u', 'e'] ++ rest) := rfl
  rw [harg]
  simp only [parseV]
  rw [dropWs_not 't' _ (by decide)]
  have hmf : matchFront ['r', 'u', 'e'] ('r' :: 'u' :: 'e' :: rest) = some rest :=
    matchFront_refl ['r', 'u', 'e'] rest
  simp [hmf]

theorem parseV_false (fuel : Nat) (rest : List Char) :
    parseV (fuel + 1) (Json.dumpL (.bool false) ++ rest) = some (.bool false, rest) := by
  have harg : Json.dumpL (.bool false) ++ rest
      = 'f' :: (['a', 'l', 's', 'e'] ++ rest) := rfl
  rw [harg]
  simp only [parseV]
  rw [dropWs_not 'f' _ (by decide)]
  have hmf : matchFront ['a', 'l', 's', 'e'] ('a' :: 'l' :: 's' :: 'e' :: rest)
      = some rest := matchFront_refl ['a', 'l', 's', 'e'] rest
  simp [hmf]

theorem parseV_str (s : String) (fuel : Nat) (rest : List Char) :
    parseV (fuel + 1) (Json.dumpL (.str s) ++ rest) = some (.str s, rest) := by
  have harg : Json.dumpL (.str s) ++ rest
      = '"' :: (s.toList.flatMap escChar ++ '"' :: rest) := by
    simp [Json.dumpL, strLitL]
  rw [harg]
  simp only [parseV]
  rw [dropWs_not '"' _ (by decide)]
  simp [scanStr_lit, mk_toList]

theorem parseV_int (i : Int) (fuel : Nat) (rest : List Char)
    (hrest : noDigitHead rest = true) :
    parseV (fuel + 1) (Json.dumpL (.num i) ++ rest) = some (.num i, rest) := by
  obtain ⟨c0, t0, hnc, hd0⟩ := natChars_head i.natAbs
  have hdv : digitsVal (c0 :: t0) = i.natAbs := by
    rw [← hnc, digitsVal_natChars]
  by_cases hneg : i < 0
  · have harg : Json.dumpL (.num i) ++ rest = '-' :: (natChars i.natAbs ++ rest) := by
      simp [Json.dumpL, intChars, hneg]
    have hgd : grabDigits (natChars i.natAbs ++ rest) = (c0 :: t0, rest) := by
      rw [grabDigits_run _ _ (natChars_digits _) (grabDigits_stop rest hrest), hnc]
    have hval : -((digitsVal (c0 :: t0) : Nat) : Int) = i := by
      rw [hdv]
      omega
    rw [harg]
    simp only [parseV]
    rw [dropWs_not '-' _ (by decide)]
    simp [hgd, hval]
  · obtain ⟨hn, ht, hf, hq, hm, hlb, hrb, hcm, hob, hcb, hws⟩ := digitC_not_special hd0
    have harg : Json.dumpL (.num i) ++ rest = c0 :: (t0 ++ rest) := by
      simp [Json.dumpL, intChars, hneg, hnc]
    have hgd : grabDigits (c0 :: (t0 ++ rest)) = (c0 :: t0, rest) := by
      have := grabDigits_run (c0 :: t0) rest
        (by rw [← hnc]; exact natChars_digits _) (grabDigits_stop rest hrest)
      simpa using this
    have hval : ((digitsVal (c0 :: t0) : Nat) : Int) = i := by
      rw [hdv]
      omega
    rw [harg]
    simp only [parseV]
    rw [dropWs_not c0 _ hws]
    simp [hn, ht, hf, hq, hm, hlb, hob, hd0, hgd, hval]

theorem dumpL_head (j : Json) :
    ∃ c t, Json.dumpL j = c :: t ∧ wsChar c = false ∧ c ≠ ']' := by
  cases j with
  | null => exact ⟨'n', _, rfl, by decide, by decide⟩
  | bool b =>
      cases b with
      | true => exact ⟨'t', _, rfl, by decide, by decide⟩
      | false => exact ⟨'f', _, rfl, by decide, by decide⟩
  | str s => exact ⟨'"', _, rfl, by decide, by decide⟩
  | arr xs => exact ⟨'[', _, rfl, by decide, by decide⟩
  | obj fs => exact ⟨obrace, _, rfl, by decide, by decide⟩
  | num i =>
      by_cases hneg : i < 0
      · refine ⟨'-', natChars i.natAbs, ?_, by decide, by decide⟩
        simp [Json.dumpL, intChars, hneg]
      · obtain ⟨c0, t0, hnc, hd0⟩ := natChars_head i.natAbs
        obtain ⟨_, _, _, _, _, _, hrb, _, _, _, hws⟩ := digitC_not_special hd0
        refine ⟨c0, t0, ?_, hws, hrb⟩
        simp [Json.dumpL, intChars, hneg, hnc]

theorem dumpItems_head (x : Json) (xs : List Json) :
    ∃ c t, Json.dumpItems (x :: xs) = c :: t ∧ wsChar c = false ∧ c ≠ ']' := by
  obtain ⟨c, t, hx, hws, hrb⟩ := dumpL_head x
  cases xs with
  | nil => exact ⟨c, t, by simp [Json.dumpItems, hx], hws, hrb⟩
  | cons y ys =>
      refine ⟨c, t ++ ',' :: Json.dumpItems (y :: ys), ?_, hws, hrb⟩
      simp [Json.dumpItems, hx]

theorem mk_data (s : String) : String.mk s.data = s := rfl

theorem dumpFields_head (k : String) (v : Json) (ms : List (String × Json)) :
    ∃ t, Json.dumpFields ((k, v) :: ms) = '"' :: t := by
  cases ms with
  | nil =>
      exact ⟨k.data.flatMap escChar ++ '"' :: ':' :: Json.dumpL v,
        by simp [Json.dumpFields, strLitL]⟩
  | cons kv2 ms2 =>
      obtain ⟨k2, v2⟩ := kv2
      exact ⟨k.data.flatMap escChar
          ++ '"' :: ':' :: (Json.dumpL v ++ ',' :: Json.dumpFields ((k2, v2) :: ms2)),
        by simp [Json.dumpFields, strLitL]⟩

mutual
theorem rtV : ∀ (j : Json) (fuel : Nat) (rest : List Char),
    (Json.dumpL j).length < fuel → noDigitHead rest = true →
    parseV fuel (Json.dumpL j ++ rest) = some (j, rest)
  | .null, fuel, rest, hf, _ => by
      cases fuel with
      | zero => exact absurd hf (Nat.not_lt_zero _)
      | succ f => exact parseV_null f rest
  | .bool true, fuel, rest, hf, _ => by
      cases fuel with
      | zero => exact absurd hf (Nat.not_lt_zero _)
      | succ f => exact parseV_true f rest
  | .bool false, fuel, rest, hf, _ => by
      cases fuel with
      | zero => exact absurd hf (Nat.not_lt_zero _)
      | succ f => exact parseV_false f rest
  | .num i, fuel, rest, hf, hr => by
      cases fuel with
      | zero => exact absurd hf (Nat.not_lt_zero _)
      | succ f => exact parseV_int i f rest hr
  | .str s, fuel, rest, hf, _ => by
      cases fuel with
      | zero => exact absurd hf (Nat.not_lt_zero _)
      | succ f => exact parseV_str s f rest
  | .arr [], fuel, rest, hf, _ => by
      cases fuel with
      | zero => exact absurd hf (Nat.not_lt_zero _)
      | succ f =>
          have harg : Json.dumpL (.arr []) ++ rest = '[' :: (']' :: rest) := rfl
          rw [harg]
          simp only [parseV]
          rw [dropWs_not '[' _ (by decide)]
          have hdw : dropWs (']' :: rest) = ']' :: rest := dropWs_not _ _ (by decide)
          simp [hdw]
  | .arr (x :: xs), fuel, rest, hf, _ => by
      cases fuel with
      | zero => exact absurd hf (Nat.not_lt_zero _)
      | succ f =>
          obtain ⟨c, t, hitems, hws, hrb⟩ := dumpItems_head x xs
          have hfi : (Json.dumpItems (x :: xs)).length + 1 < f := by
            have hlen : (Json.dumpL (.arr (x :: xs))).length
                = (Json.dumpItems (x :: xs)).length + 2 := by
              simp [Json.dumpL]
            omega
          have hkey := rtIs x xs f rest hfi
          have harg : Json.dumpL (.arr (x :: xs)) ++ rest
              = '[' :: (c :: (t ++ ']' :: rest)) := by
            simp [Json.dumpL, hitems]
          rw [harg]
          simp only [parseV]
          rw [dropWs_not '[' _ (by decide)]
          have hdw : dropWs (c :: (t ++ ']' :: rest)) = c :: (t ++ ']' :: rest) :=
            dropWs_not c _ hws
          rw [hitems] at hkey
          simp only [List.cons_append] at hkey
          simp [hdw, hrb, hkey]
  | .obj [], fuel, rest, hf, _ => by
      cases fuel with
      | zero => exact absurd hf (Nat.not_lt_zero _)
      | succ f =>
          have harg : Json.dumpL (.obj []) ++ rest = obrace :: (cbrace :: rest) := rfl
          rw [harg]
          simp only [parseV]
          rw [dropWs_not obrace _ (by decide)]
          have hdw : dropWs (cbrace :: rest) = cbrace :: rest :=
            dropWs_not _ _ (by decide)
          simp +decide [hdw]
  | .obj ((k, v) :: ms), fuel, rest, hf, _ => by
      cases fuel with
      | zero => exact absurd hf (Nat.not_lt_zero _)
      | succ f =>
          obtain ⟨t, hfields⟩ := dumpFields_head k v ms
          have hfi : (Json.dumpFields ((k, v) :: ms)).length + 1 < f := by
            have hlen : (Json.dumpL (.obj ((k, v) :: ms))).length
                = (Json.dumpFields ((k, v) :: ms)).length + 2 := by
              simp [Json.dumpL]
            omega
          have hkey := rtFs (k, v) ms f rest hfi
          have harg : Json.dumpL (.obj ((k, v) :: ms)) ++ rest
              = obrace :: ('"' :: (t ++ cbrace :: rest)) := by
            simp [Json.dumpL, hfields]
          rw [harg]
          simp only [parseV]
          rw [dropWs_not obrace _ (by decide)]
          have hdw : dropWs ('"' :: (t ++ cbrace :: rest)) = '"' :: (t ++ cbrace :: rest) :=
            dropWs_not _ _ (by decide)
          rw [hfields] at hkey
          simp only [List.cons_append] at hkey
          simp +decide [hdw, hkey]
  termination_by j _ _ _ _ => sizeOf j

theorem rtIs : ∀ (x : Json) (xs : List Json) (fuel : Nat) (rest : List Char),
    (Json.dumpItems (x :: xs)).length + 1 < fuel →
    parseIs fuel (Json.dumpItems (x :: xs) ++ ']' :: rest) = some (x :: xs, rest)
  | x, [], fuel, rest, hf => by
      cases fuel with
      | zero => omega
      | succ f =>
          have hfx : (Json.dumpL x).length < f := by
            simp only [Json.dumpItems] at hf
            omega
          have hv := rtV x f (']' :: rest) hfx (by rfl)
          have harg : Json.dumpItems [x] ++ ']' :: rest = Json.dumpL x ++ ']' :: rest := by
            simp [Json.dumpItems]
          rw [harg]
          simp only [parseIs]
          rw [hv]
          have hdw : dropWs (']' :: rest) = ']' :: rest := dropWs_not _ _ (by decide)
          simp [hdw]
  | x, y :: ys, fuel, rest, hf => by
      cases fuel with
      | zero => omega
      | succ f =>
          have hlen : (Json.dumpItems (x :: y :: ys)).length
              = (Json.dumpL x).length + (Json.dumpItems (y :: ys)).length + 1 := by
            simp [Json.dumpItems]
            omega
          have hfx : (Json.dumpL x).length < f := by omega
          have hfy : (Json.dumpItems (y :: ys)).length + 1 < f := by omega
          have hv := rtV x f (',' :: (Json.dumpItems (y :: ys) ++ ']' :: rest)) hfx
            (by rfl)
          have hkey := rtIs y ys f rest hfy
          obtain ⟨c, t, hitems, hws, _⟩ := dumpItems_head y ys
          have harg : Json.dumpItems (x :: y :: ys) ++ ']' :: rest
              = Json.dumpL x ++ ',' :: (Json.dumpItems (y :: ys) ++ ']' :: rest) := by
            simp [Json.dumpItems]
          rw [harg]
          simp only [parseIs]
          rw [hv]
          have hdw1 : dropWs (',' :: (Json.dumpItems (y :: ys) ++ ']' :: rest))
              = ',' :: (Json.dumpItems (y :: ys) ++ ']' :: rest) :=
            dropWs_not _ _ (by decide)
          have hdw2 : dropWs (Json.dumpItems (y :: ys) ++ ']' :: rest)
              = Json.dumpItems (y :: ys) ++ ']' :: rest := by
            rw [hitems, List.cons_append]
            exact dropWs_not c _ hws
          simp [hdw1, hdw2, hkey]
  termination_by x xs _ _ _ => sizeOf x + sizeOf xs

theorem rtFs : ∀ (kv : String × Json) (ms : List (String × Json)) (fuel : Nat)
    (rest : List Char),
    (Json.dumpFields (kv :: ms)).length + 1 < fuel →
    parseFs fuel (Json.dumpFields (kv :: ms) ++ cbrace :: rest) = some (kv :: ms, rest)
  | (k, v), [], fuel, rest, hf => by
      cases fuel with
      | zero => omega
      | succ f =>
          have hlen : (Json.dumpFields [(k, v)]).length
              = (strLitL k).length + (Json.dumpL v).length + 1 := by
            simp [Json.dumpFields]
            omega
          have hfv : (Json.dumpL v).length < f := by omega
          have hv := rtV v f (cbrace :: rest) hfv (by rfl)
          obtain ⟨cv, tv, hvh, hvws, _⟩ := dumpL_head v
          have harg : Json.dumpFields [(k, v)] ++ cbrace :: rest
              = '"' :: (k.toList.flatMap escChar
                  ++ '"' :: (':' :: (Json.dumpL v ++ cbrace :: rest))) := by
            simp [Json.dumpFields, strLitL]
          rw [harg]
          simp only [parseFs]
          rw [dropWs_not '"' _ (by decide)]
          have hs := scanStr_lit k.data []
            (':' :: (Json.dumpL v ++ cbrace :: rest))
          have hdw1 : dropWs (':' :: (Json.dumpL v ++ cbrace :: rest))
              = ':' :: (Json.dumpL v ++ cbrace :: rest) := dropWs_not _ _ (by decide)
          have hdw2 : dropWs (Json.dumpL v ++ cbrace :: rest)
              = Json.dumpL v ++ cbrace :: rest := by
            rw [hvh, List.cons_append]
            exact dropWs_not cv _ hvws
          have hdw3 : dropWs (cbrace :: rest) = cbrace :: rest :=
            dropWs_not _ _ (by decide)
          simp +decide [hs, hdw1, hdw2, hdw3, hv, mk_toList, mk_data]
  | (k, v), (k2, v2) :: ms2, fuel, rest, hf => by
      cases fuel with
      | zero => omega
      | succ f =>
          have hlen : (Json.dumpFields ((k, v) :: (k2, v2) :: ms2)).length
              = (strLitL k).length + (Json.dumpL v).length
                + (Json.dumpFields ((k2, v2) :: ms2)).length + 2 := by
            simp [Json.dumpFields]
            omega
          have hfv : (Json.dumpL v).length < f := by omega
          have hfm : (Json.dumpFields ((k2, v2) :: ms2)).length + 1 < f := by omega
          have hv := rtV v f
            (',' :: (Json.dumpFields ((k2, v2) :: ms2) ++ cbrace :: rest)) hfv
            (by rfl)
          have hkey := rtFs (k2, v2) ms2 f rest hfm
          obtain ⟨cv, tv, hvh, hvws, _⟩ := dumpL_head v
          obtain ⟨t2, hfields2⟩ := dumpFields_head k2 v2 ms2
          have harg : Json.dumpFields ((k, v) :: (k2, v2) :: ms2) ++ cbrace :: rest
              = '"' :: (k.toList.flatMap escChar
                  ++ '"' :: (':' :: (Json.dumpL v
                    ++ ',' :: (Json.dumpFields ((k2, v2) :: ms2)
                      ++ cbrace :: rest)))) := by
            simp [Json.dumpFields, strLitL]
          rw [harg]
          simp only [parseFs]
          rw [dropWs_not '"' _ (by decide)]
          have hs := scanStr_lit k.data []
            (':' :: (Json.dumpL v ++ ',' :: (Json.dumpFields ((k2, v2) :: ms2)
              ++ cbrace :: rest)))
          have hdw1 : dropWs (':' :: (Json.dumpL v
              ++ ',' :: (Json.dumpFields ((k2, v2) :: ms2) ++ cbrace :: rest)))
              = ':' :: (Json.dumpL v
                ++ ',' :: (Json.dumpFields ((k2, v2) :: ms2) ++ cbrace :: rest)) :=
            dropWs_not _ _ (by decide)
          have hdw2 : dropWs (Json.dumpL v
              ++ ',' :: (Json.dumpFields ((k2, v2) :: ms2) ++ cbrace :: rest))
              = Json.dumpL v
                ++ ',' :: (Json.dumpFields ((k2, v2) :: ms2) ++ cbrace :: rest) := by
            rw [hvh, List.cons_append]
            exact dropWs_not cv _ hvws
          have hdw3 : dropWs (',' :: (Json.dumpFields ((k2, v2) :: ms2)
              ++ cbrace :: rest))
              = ',' :: (Json.dumpFields ((k2, v2) :: ms2) ++ cbrace :: rest) :=
            dropWs_not _ _ (by decide)
          have hdw4 : dropWs (Json.dumpFields ((k2, v2) :: ms2) ++ cbrace :: rest)
              = Json.dumpFields ((k2, v2) :: ms2) ++ cbrace :: rest := by
            rw [hfields2, List.cons_append]
            exact dropWs_not '"' _ (by decide)
          simp +decide [hs, hdw1, hdw2, hdw3, hdw4, hv, hkey, mk_toList, mk_data]
  termination_by kv ms _ _ _ => sizeOf kv + sizeOf ms
end

theorem toList_mk (l : List Char) : (String.mk l).toList = l := rfl

theorem loads_dumps (j : Json) : Json.loads (Json.dumps j) = some j := by
  have h := rtV j ((Json.dumpL j).length + 1) [] (by omega) (by rfl)
  rw [List.append_nil] at h
  simp only [Json.loads, Json.dumps, toList_mk]
  simp [h, dropWs]

/-- C8: The export round-trip is the identity on JSON-native data: for every
report value built from JSON-native types (null, booleans, integers, strings,
arrays, objects), serializing it with OrganizationInspector.export_to_json
(json.dump) and deserializing the resulting JSON text yields the identical
value, so the organization fields and the dependency keys and values all
survive unchanged. -/
theorem export_to_json_roundtrip (data : Json) :
    Json.loads (OrganizationInspector.export_to_json data) = some data := by
  simp only [OrganizationInspector.export_to_json]
  exact loads_dumps data
